import Mathlib

/-!
Shallow embedding of the transaction-insight engine of `ai-finion-backend`
(`data_processor.py`, `goals_manager.py`) together with proofs about it.

Modelling conventions:
* Python floats are modelled as exact rationals (`ℚ`).
* A Python exception is modelled by `Option`: a function that can raise
  returns `none` exactly when the original code raises.
* Strings are handled at the level of their character lists; `upper`,
  substring search and lexicographic comparison are ASCII models of the
  Python operations actually exercised by this code base.
* `datetime.strptime(s, "%Y-%m-%d")` is modelled strictly: the string must
  be of the exact zero-padded `YYYY-MM-DD` shape and denote a real
  calendar date (proleptic Gregorian, year ≥ 1).
* `datetime.now()` / injected reference times are modelled at day
  granularity (midnight), as the spec's "injected reference time".
-/

namespace Finion

/-! ## ASCII character helpers -/

/-- ASCII uppercase of one character (model of `str.upper` on the ASCII
letters this code base uses). -/
def asciiUpper (c : Char) : Char :=
  match c with
  | 'a' => 'A' | 'b' => 'B' | 'c' => 'C' | 'd' => 'D' | 'e' => 'E'
  | 'f' => 'F' | 'g' => 'G' | 'h' => 'H' | 'i' => 'I' | 'j' => 'J'
  | 'k' => 'K' | 'l' => 'L' | 'm' => 'M' | 'n' => 'N' | 'o' => 'O'
  | 'p' => 'P' | 'q' => 'Q' | 'r' => 'R' | 's' => 'S' | 't' => 'T'
  | 'u' => 'U' | 'v' => 'V' | 'w' => 'W' | 'x' => 'X' | 'y' => 'Y'
  | 'z' => 'Z' | other => other

/-- `s.upper()` (ASCII model). -/
def upperStr (s : String) : String :=
  String.mk (s.data.map asciiUpper)

/-- Digit value of a character; `10` marks a non-digit. -/
def dg (c : Char) : ℕ :=
  match c with
  | '0' => 0 | '1' => 1 | '2' => 2 | '3' => 3 | '4' => 4
  | '5' => 5 | '6' => 6 | '7' => 7 | '8' => 8 | '9' => 9
  | _ => 10

/-- The decimal digit character for `n < 10`. -/
def digitChar (n : ℕ) : Char :=
  match n with
  | 0 => '0' | 1 => '1' | 2 => '2' | 3 => '3' | 4 => '4'
  | 5 => '5' | 6 => '6' | 7 => '7' | 8 => '8' | 9 => '9'
  | _ => 'X'

/-- `c` is an ASCII decimal digit. -/
def isDig (c : Char) : Bool := dg c < 10

/-- `needle in hay` on character lists (Python's `in` for strings). -/
def infixOf : List Char → List Char → Bool
  | n, [] => n.isEmpty
  | n, h :: t => n.isPrefixOf (h :: t) || infixOf n t

/-- Python's `needle in hay` substring test. -/
def subs (needle hay : String) : Bool := infixOf needle.data hay.data

/-- Lexicographic `<` on character lists by code point (Python string `<`). -/
def charsLt : List Char → List Char → Bool
  | [], [] => false
  | [], _ :: _ => true
  | _ :: _, [] => false
  | a :: as, b :: bs =>
    if a.toNat < b.toNat then true
    else if b.toNat < a.toNat then false
    else charsLt as bs

/-- Python string `a < b`. -/
def strLtB (a b : String) : Bool := charsLt a.data b.data

/-- Python string `a <= b`. -/
def strLeB (a b : String) : Bool := !(strLtB b a)

/-! ## Python numeric helpers -/

/-- `int(x)` on a float: truncation toward zero. -/
def pytrunc (q : ℚ) : ℤ := if 0 ≤ q then ⌊q⌋ else -⌊-q⌋

/-- Round half to even to an integer (Python's `round` tie behaviour). -/
def rhe (q : ℚ) : ℤ :=
  if q - ⌊q⌋ < 1/2 then ⌊q⌋
  else if 1/2 < q - ⌊q⌋ then ⌊q⌋ + 1
  else if ⌊q⌋ % 2 = 0 then ⌊q⌋ else ⌊q⌋ + 1

/-- `round(x, 2)` modelled exactly on rationals. -/
def round2 (q : ℚ) : ℚ := (rhe (q * 100) : ℚ) / 100

/-! ## Decimal string parsing (model of `float(s)` / `int(s)` on strings) -/

/-- Numeric value of a digit list (most significant first). -/
def digitsVal (cs : List Char) : ℕ := cs.foldl (fun a c => 10 * a + dg c) 0

/-- Split a character list at `'.'` occurrences. -/
def splitOnDot : List Char → List (List Char)
  | [] => [[]]
  | x :: xs =>
    match splitOnDot xs with
    | [] => [[]]
    | g :: gs => if x = '.' then [] :: g :: gs else (x :: g) :: gs

/-- Unsigned decimal literal: `"12"`, `"12.5"`, `"12."`, `".5"`. -/
def parseUnsignedDec (cs : List Char) : Option ℚ :=
  match splitOnDot cs with
  | [ip] =>
    if ip ≠ [] ∧ ip.all isDig then some (digitsVal ip : ℚ) else none
  | [ip, fp] =>
    if (ip ≠ [] ∨ fp ≠ []) ∧ ip.all isDig ∧ fp.all isDig then
      some ((digitsVal ip : ℚ) + (digitsVal fp : ℚ) / 10 ^ fp.length)
    else none
  | _ => none

/-- Model of Python `float(s)` on a string: optional sign, decimal literal. -/
def parseFloatStr (s : String) : Option ℚ :=
  match s.data with
  | '-' :: rest => (parseUnsignedDec rest).map (fun q => -q)
  | '+' :: rest => parseUnsignedDec rest
  | cs => parseUnsignedDec cs

/-- Model of Python `int(s)` on a string: optional sign, digits only. -/
def parseIntStr (s : String) : Option ℤ :=
  match s.data with
  | '-' :: rest =>
    if rest ≠ [] ∧ rest.all isDig then some (-(digitsVal rest : ℤ)) else none
  | '+' :: rest =>
    if rest ≠ [] ∧ rest.all isDig then some (digitsVal rest : ℤ) else none
  | cs => if cs ≠ [] ∧ cs.all isDig then some (digitsVal cs : ℤ) else none

/-! ## Calendar dates -/

/-- A parsed calendar date. -/
structure Date where
  y : ℕ
  m : ℕ
  d : ℕ
deriving DecidableEq, Repr

/-- Gregorian leap year. -/
def isLeap (y : ℕ) : Bool := y % 4 = 0 ∧ (y % 100 ≠ 0 ∨ y % 400 = 0)

/-- Number of days in month `m` of year `y` (0 outside 1..12). -/
def daysInMonth (y m : ℕ) : ℕ :=
  if m = 2 then (if isLeap y then 29 else 28)
  else if m = 4 ∨ m = 6 ∨ m = 9 ∨ m = 11 then 30
  else if 1 ≤ m ∧ m ≤ 12 then 31
  else 0

/-- Days of year `y` strictly before month `m` (for `m ∈ 1..13`). -/
def daysBeforeMonth (y : ℕ) : ℕ → ℕ
  | 0 => 0
  | 1 => 0
  | m + 1 => daysBeforeMonth y m + daysInMonth y m

/-- Number of leap years in `[1, y-1]`. -/
def leapsBefore (y : ℕ) : ℕ := (y - 1) / 4 - (y - 1) / 100 + (y - 1) / 400

/-- Days strictly before year `y` counted from 0001-01-01. -/
def daysBeforeYear (y : ℕ) : ℕ := 365 * (y - 1) + leapsBefore y

/-- Rata-die style ordinal of a date (0001-01-01 ↦ 0). -/
def toOrdinal (dt : Date) : ℕ :=
  daysBeforeYear dt.y + daysBeforeMonth dt.y dt.m + (dt.d - 1)

/-- The date denotes a real calendar day (year ≥ 1, as in `datetime`). -/
def validDate (dt : Date) : Bool :=
  1 ≤ dt.y ∧ 1 ≤ dt.m ∧ dt.m ≤ 12 ∧ 1 ≤ dt.d ∧ dt.d ≤ daysInMonth dt.y dt.m

/-- Successor day (`+ timedelta(days=1)`). -/
def nextDay (dt : Date) : Date :=
  if dt.d < daysInMonth dt.y dt.m then ⟨dt.y, dt.m, dt.d + 1⟩
  else if dt.m < 12 then ⟨dt.y, dt.m + 1, 1⟩
  else ⟨dt.y + 1, 1, 1⟩

/-- `dt + timedelta(days=n)`. -/
def addDays : ℕ → Date → Date
  | 0, dt => dt
  | n + 1, dt => addDays n (nextDay dt)

/-- Chronological (field-lexicographic) strict order on dates, as Python
compares `datetime` values. -/
def dltB (a b : Date) : Bool :=
  decide (a.y < b.y ∨ (a.y = b.y ∧ (a.m < b.m ∨ (a.m = b.m ∧ a.d < b.d))))

/-- Chronological `≤` on dates. -/
def dleB (a b : Date) : Bool := !(dltB b a)

/-- Zero-padded 2-digit numeral. -/
def pad2 (n : ℕ) : List Char := [digitChar (n / 10 % 10), digitChar (n % 10)]

/-- Zero-padded 4-digit numeral. -/
def pad4 (n : ℕ) : List Char :=
  [digitChar (n / 1000 % 10), digitChar (n / 100 % 10),
   digitChar (n / 10 % 10), digitChar (n % 10)]

/-- `dt.strftime("%Y-%m-%d")`. -/
def strftimeYmd (dt : Date) : String :=
  String.mk (pad4 dt.y ++ '-' :: pad2 dt.m ++ '-' :: pad2 dt.d)

/-- `dt.strftime("%Y-%m")` (month bucket key). -/
def strftimeYm (dt : Date) : String :=
  String.mk (pad4 dt.y ++ '-' :: pad2 dt.m)

/-- Character-level body of `strptimeYmd`. -/
def strptimeList : List Char → Option Date
  | [y1, y2, y3, y4, s1, m1, m2, s2, d1, d2] =>
    if s1 = '-' ∧ s2 = '-' ∧
       isDig y1 ∧ isDig y2 ∧ isDig y3 ∧ isDig y4 ∧
       isDig m1 ∧ isDig m2 ∧ isDig d1 ∧ isDig d2 then
      if validDate ⟨1000 * dg y1 + 100 * dg y2 + 10 * dg y3 + dg y4,
                    10 * dg m1 + dg m2, 10 * dg d1 + dg d2⟩ then
        some ⟨1000 * dg y1 + 100 * dg y2 + 10 * dg y3 + dg y4,
              10 * dg m1 + dg m2, 10 * dg d1 + dg d2⟩
      else none
    else none
  | _ => none

/-- `datetime.strptime(s, "%Y-%m-%d")`, strict zero-padded model; `none`
models the `ValueError` raised on malformed or impossible dates. -/
def strptimeYmd (s : String) : Option Date := strptimeList s.data

/-! ## Provider payload values and Python conversions -/

/-- A JSON-ish field of a provider row: a number or a string. -/
inductive JVal
  | num (q : ℚ)
  | str (s : String)
deriving DecidableEq, Repr

/-- Python `float(v)`: numbers pass through, strings must parse;
`none` models the raised `ValueError`/`TypeError`. -/
def pyFloat : JVal → Option ℚ
  | .num q => some q
  | .str s => parseFloatStr s

/-- Python `int(v)`: floats truncate toward zero, strings must be integral. -/
def pyInt : JVal → Option ℤ
  | .num q => some (pytrunc q)
  | .str s => parseIntStr s

/-- The string content of a field (narration/date/mode are strings in the
provider payload; a number is carried through via its printed form). -/
def pyStr : JVal → String
  | .num q => toString q
  | .str s => s

/-! ## Classifier (`categorize_transaction`) -/

/-- `CATEGORY_MAPPINGS`, in the source's insertion order. -/
def CATEGORY_MAPPINGS : List (String × String) :=
  [("GROCERIES", "Groceries"),
   ("DINING", "Dining"),
   ("CREDIT CARD", "Credit Card Payment"),
   ("BILL PAYMENT", "Bills"),
   ("BILLPAY", "Bills"),
   ("MUTUAL FUND", "Investment"),
   ("LUMPSUM INV", "Investment"),
   ("SIP", "Investment"),
   ("ZERODHA", "Investment"),
   ("GOLD ETF", "Investment"),
   ("RD", "Savings"),
   ("FD", "Savings"),
   ("FIXED DEPOSIT", "Savings"),
   ("NEFT", "Transfer"),
   ("IMPS", "Transfer"),
   ("UPI", "Shopping"),
   ("EMI", "Loan"),
   ("INSTALLMENT", "Loan"),
   ("NETFLIX", "Streaming"),
   ("SONYLIV", "Streaming"),
   ("HOTSTAR", "Streaming"),
   ("AMAZON PRIME", "Streaming"),
   ("SPOTIFY", "Streaming"),
   ("YOUTUBE", "Streaming"),
   ("ACT BROADBAND", "Internet"),
   ("AIRTEL", "Telecom"),
   ("JIO", "Telecom"),
   ("VODAFONE", "Telecom"),
   ("TATASKY", "DTH"),
   ("DISHTV", "DTH"),
   ("INSURANCE", "Insurance"),
   ("LIC", "Insurance"),
   ("POLICY", "Insurance"),
   ("CARD_PAYMENT", "Credit Card Payment"),
   ("AMEX", "Credit Card Payment"),
   ("HDFC CREDIT CARD", "Credit Card Payment"),
   ("ICICI CREDIT CARD", "Credit Card Payment"),
   ("SBI CARD", "Credit Card Payment"),
   ("RENT", "Housing")]

/-- The priority keyword list, in the source's order. -/
def PRIORITY_KEYWORDS : List String :=
  ["NETFLIX", "SONYLIV", "HOTSTAR", "AMAZON PRIME", "SPOTIFY", "YOUTUBE",
   "ACT BROADBAND", "AIRTEL", "JIO", "VODAFONE", "TATASKY", "DISHTV",
   "INSURANCE", "LIC", "POLICY",
   "CARD_PAYMENT", "AMEX", "HDFC CREDIT CARD", "ICICI CREDIT CARD", "SBI CARD",
   "SIP", "MUTUAL FUND", "LUMPSUM INV", "ZERODHA", "GOLD ETF",
   "RD", "FD", "FIXED DEPOSIT",
   "EMI", "INSTALLMENT",
   "RENT"]

/-- `CATEGORY_MAPPINGS.get(k, default)` — first binding of `k`. -/
def lookupMapping : List (String × String) → String → Option String
  | [], _ => none
  | (k, v) :: rest, key => if k = key then some v else lookupMapping rest key

/-- The first `for keyword in priority_keywords` loop with early `return`. -/
def priorityScan : List String → String → Option String
  | [], _ => none
  | k :: ks, combined =>
    if subs k combined then some ((lookupMapping CATEGORY_MAPPINGS k).getD "Others")
    else priorityScan ks combined

/-- The second `for keyword, category in CATEGORY_MAPPINGS.items()` loop. -/
def mappingScan : List (String × String) → String → Option String
  | [], _ => none
  | (k, cat) :: ks, combined =>
    if subs k combined then some cat else mappingScan ks combined

/-- `TransactionProcessor.categorize_transaction(narration, merchant)`. -/
def categorize_transaction (narration : String) (merchant : String) : String :=
  let combined := upperStr (narration ++ " " ++ merchant)
  match priorityScan PRIORITY_KEYWORDS combined with
  | some c => c
  | none =>
    match mappingScan CATEGORY_MAPPINGS combined with
    | some c => c
    | none => "Others"

/-! ## Normalizer (`parse_bank_transactions`) -/

/-- A normalized transaction record. -/
structure Transaction where
  amount : ℚ
  narration : String
  date : String
  txn_type : String
  mode : String
  balance : ℚ
  category : String
  bank : String
deriving DecidableEq, Repr

/-- One `bankTransactions` block (`bank.get('bank', 'Unknown Bank')`,
`bank.get('txns', [])`). -/
structure BankBlock where
  bank : Option String
  txns : Option (List (List JVal))
deriving Repr

/-- The provider payload; `bankTransactions = none` models a payload
without that key. -/
structure BankData where
  bankTransactions : Option (List BankBlock)
deriving Repr

/-- One iteration of the inner `for txn in bank.get('txns', [])` loop:
`none` models the uncaught `ValueError` from `float`/`int` on the amount,
direction code, or balance field; `some none` a row skipped for having
fewer than 6 fields; `some (some tx)` a normalized transaction. -/
def parseRow (bankName : String) : List JVal → Option (Option Transaction)
  | a :: n :: dte :: t :: mo :: b :: _ =>
    match pyFloat a, pyInt t, pyFloat b with
    | some amount, some ttype, some balance =>
      let narration := pyStr n
      let mode := pyStr mo
      some (some
        { amount := amount
          narration := narration
          date := pyStr dte
          txn_type := if ttype = 1 then "CREDIT" else "DEBIT"
          mode := mode
          balance := balance
          category := categorize_transaction narration mode
          bank := bankName })
    | _, _, _ => none
  | _ => some none

/-- The inner row loop. -/
def parseRows (bankName : String) : List (List JVal) → Option (List Transaction)
  | [] => some []
  | r :: rest =>
    match parseRow bankName r with
    | none => none
    | some o => (parseRows bankName rest).map (fun l => o.toList ++ l)

/-- The outer `for bank in bank_data.get('bankTransactions', [])` loop. -/
def parseBanks : List BankBlock → Option (List Transaction)
  | [] => some []
  | bk :: rest => do
    let ts ← parseRows (bk.bank.getD "Unknown Bank") (bk.txns.getD [])
    let rs ← parseBanks rest
    pure (ts ++ rs)

/-- `TransactionProcessor.parse_bank_transactions`. -/
def parse_bank_transactions (bd : BankData) : Option (List Transaction) :=
  match bd.bankTransactions with
  | none => some []
  | some banks => parseBanks banks

/-! ## Stable sort (model of Python `sorted` / `list.sort`) -/

/-- Insert `x` (an element originally to the left of `l`) into the sorted
list `l`: `x` goes before the first element it may precede, so equal keys
keep their original order (stability). -/
def pyInsert (r : α → α → Bool) (x : α) : List α → List α
  | [] => [x]
  | y :: ys => if r x y then x :: y :: ys else y :: pyInsert r x ys

/-- Stable sort with respect to the boolean "may precede" relation `r`
(for a total preorder this computes exactly what Python's stable
`sorted` returns). -/
def pysorted (r : α → α → Bool) : List α → List α
  | [] => []
  | x :: xs => pyInsert r x (pysorted r xs)

/-! ## Aggregators -/

/-- `defaultdict(float)` bucket update: add `a` at key `s`. -/
def bumpAmt : List (String × ℚ) → String → ℚ → List (String × ℚ)
  | [], s, a => [(s, a)]
  | (k, v) :: rest, s, a =>
    if k = s then (k, v + a) :: rest else (k, v) :: bumpAmt rest s a

/-- `buckets.get(s, 0)`. -/
def lookupAmt : List (String × ℚ) → String → ℚ
  | [], _ => 0
  | (k, v) :: rest, s => if k = s then v else lookupAmt rest s

/-- The debit-bucketing loop of `calculate_daily_spend`: for every `DEBIT`
transaction the date is parsed (`none` models the uncaught `ValueError`),
and in-range amounts accumulate under the transaction's raw date string. -/
def dailyBucketsAux (fd td : Date) (acc : List (String × ℚ)) :
    List Transaction → Option (List (String × ℚ))
  | [] => some acc
  | t :: ts =>
    if t.txn_type = "DEBIT" then
      match strptimeYmd t.date with
      | none => none
      | some dt =>
        dailyBucketsAux fd td
          (if dleB fd dt ∧ dleB dt td then bumpAmt acc t.date t.amount else acc) ts
    else dailyBucketsAux fd td acc ts

/-- The `while current <= to_dt` day enumeration, fuelled by the number of
days in the range (for a valid start date the fuel is exact, so this is
the loop's behaviour). -/
def dayRangeAux (toD : Date) : ℕ → Date → List Date
  | 0, _ => []
  | fuel + 1, cur =>
    if dleB cur toD then cur :: dayRangeAux toD fuel (nextDay cur) else []

/-- All days from `fd` to `td` inclusive. -/
def dayRange (fd td : Date) : List Date :=
  dayRangeAux td (toOrdinal td + 1 - toOrdinal fd) fd

/-- One output entry of `calculate_daily_spend`. -/
structure DayEntry where
  date : String
  amount : ℚ
deriving DecidableEq, Repr

/-- `TransactionProcessor.calculate_daily_spend`. -/
def calculate_daily_spend (ts : List Transaction) (from_date to_date : String) :
    Option (List DayEntry) :=
  match strptimeYmd from_date, strptimeYmd to_date with
  | some fd, some td =>
    (dailyBucketsAux fd td [] ts).map (fun m =>
      (dayRange fd td).map (fun dt =>
        { date := strftimeYmd dt, amount := lookupAmt m (strftimeYmd dt) }))
  | _, _ => none

/-- The debit-bucketing loop of `calculate_monthly_spend` (buckets keyed
by `txn_date.strftime('%Y-%m')`). -/
def monthlyBucketsAux (fd td : Date) (acc : List (String × ℚ)) :
    List Transaction → Option (List (String × ℚ))
  | [] => some acc
  | t :: ts =>
    if t.txn_type = "DEBIT" then
      match strptimeYmd t.date with
      | none => none
      | some dt =>
        monthlyBucketsAux fd td
          (if dleB fd dt ∧ dleB dt td then bumpAmt acc (strftimeYm dt) t.amount else acc) ts
    else monthlyBucketsAux fd td acc ts

/-- One output entry of `calculate_monthly_spend`. -/
structure MonthEntry where
  month : String
  amount : ℚ
deriving DecidableEq, Repr

/-- `sorted(monthly_spend.items())`: ascending tuple order. -/
def itemLe (a b : String × ℚ) : Bool :=
  if a.1 = b.1 then decide (a.2 ≤ b.2) else strLtB a.1 b.1

/-- `TransactionProcessor.calculate_monthly_spend`. -/
def calculate_monthly_spend (ts : List Transaction) (from_date to_date : String) :
    Option (List MonthEntry) :=
  match strptimeYmd from_date, strptimeYmd to_date with
  | some fd, some td =>
    (monthlyBucketsAux fd td [] ts).map (fun m =>
      (pysorted itemLe m).map (fun kv => { month := kv.1, amount := kv.2 }))
  | _, _ => none

/-- One output entry of `calculate_category_breakdown`. -/
structure BreakdownEntry where
  category : String
  amount : ℚ
  percentage : ℚ
deriving DecidableEq, Repr

/-- The result of `calculate_category_breakdown`. -/
structure BreakdownResult where
  total : ℚ
  breakdown : List BreakdownEntry
deriving DecidableEq, Repr

/-- The debit-bucketing loop of `calculate_category_breakdown`, also
accumulating the period total. -/
def categoryBucketsAux (fd td : Date) (acc : List (String × ℚ) × ℚ) :
    List Transaction → Option (List (String × ℚ) × ℚ)
  | [] => some acc
  | t :: ts =>
    if t.txn_type = "DEBIT" then
      match strptimeYmd t.date with
      | none => none
      | some dt =>
        categoryBucketsAux fd td
          (if dleB fd dt ∧ dleB dt td then
            (bumpAmt acc.1 t.category t.amount, acc.2 + t.amount)
          else acc) ts
    else categoryBucketsAux fd td acc ts

/-- `sorted(category_spend.items(), key=lambda x: x[1], reverse=True)`. -/
def amountDescLe (a b : String × ℚ) : Bool := decide (b.2 ≤ a.2)

/-- `TransactionProcessor.calculate_category_breakdown`. -/
def calculate_category_breakdown (ts : List Transaction) (from_date to_date : String) :
    Option BreakdownResult :=
  match strptimeYmd from_date, strptimeYmd to_date with
  | some fd, some td =>
    (categoryBucketsAux fd td ([], 0) ts).map (fun mt =>
      let total : ℚ := mt.2
      { total := total
        breakdown := (pysorted amountDescLe mt.1).map (fun kv =>
          { category := kv.1
            amount := kv.2
            percentage := round2 (if 0 < total then kv.2 / total * 100 else 0) }) })
  | _, _ => none

/-! ## Recurring-payment detector (`get_payment_nudges`) -/

/-- `AUTOPAY_CATEGORIES`. -/
def AUTOPAY_CATEGORIES : List String :=
  ["Housing", "Utilities", "Streaming", "Internet", "Telecom", "DTH",
   "Insurance", "Loan", "Investment", "Savings", "Credit Card Payment"]

/-- The streaming-service loop with `break`: first matching service name,
title-cased, else the generic label. -/
def findService (narration : String) : String :=
  if subs "NETFLIX" narration then "Netflix"
  else if subs "SONYLIV" narration then "Sonyliv"
  else if subs "HOTSTAR" narration then "Hotstar"
  else if subs "SPOTIFY" narration then "Spotify"
  else if subs "AMAZON PRIME" narration then "Amazon Prime"
  else if subs "YOUTUBE" narration then "Youtube"
  else "Streaming Service"

/-- The `(label, amount)` grouping key built per filtered transaction. -/
def groupKey (t : Transaction) : String × ℤ :=
  let narration := upperStr t.narration
  if t.category = "Investment" ∧ subs "SIP" narration then
    if subs "KOTAKMF" narration then ("Kotak MF SIP", pytrunc t.amount)
    else if subs "ADITYABIRLAMF" narration then ("Aditya Birla MF SIP", pytrunc t.amount)
    else if subs "ICICIPRUMF" narration then ("ICICI Pru MF SIP", pytrunc t.amount)
    else if subs "HDFCMF" narration then ("HDFC MF SIP", pytrunc t.amount)
    else ("SIP Investment", pytrunc t.amount)
  else if t.category = "Streaming" then
    (findService narration, pytrunc t.amount)
  else if t.category = "Internet" ∧ subs "ACT BROADBAND" narration then
    ("ACT Broadband", pytrunc t.amount)
  else if t.category = "Loan" ∧ subs "EMI" narration then
    ("EMI Payment", pytrunc t.amount)
  else if t.category = "Savings" ∧ subs "RD" narration then
    ("RD Installment", pytrunc t.amount)
  else if t.category = "Housing" ∧ subs "RENT" narration then
    ("Rent", pytrunc t.amount)
  else if t.category = "Credit Card Payment" then
    if subs "AMEX" narration then ("AMEX Card Payment", pytrunc t.amount)
    else ("Credit Card Payment", pytrunc t.amount)
  else
    (t.category, pytrunc (t.amount / 100) * 100)

/-- Whether `groupKey` falls through to the generic
`(category, amount rounded down to 100)` branch. -/
def genericKeyed (t : Transaction) : Bool :=
  let narration := upperStr t.narration
  !(decide (t.category = "Investment") && subs "SIP" narration) &&
  !(decide (t.category = "Streaming")) &&
  !(decide (t.category = "Internet") && subs "ACT BROADBAND" narration) &&
  !(decide (t.category = "Loan") && subs "EMI" narration) &&
  !(decide (t.category = "Savings") && subs "RD" narration) &&
  !(decide (t.category = "Housing") && subs "RENT" narration) &&
  !(decide (t.category = "Credit Card Payment"))

/-- `defaultdict(list)` append at a tuple key, preserving first-seen key
order (Python dict iteration order). -/
def addToGroups :
    List ((String × ℤ) × List Transaction) → (String × ℤ) → Transaction →
    List ((String × ℤ) × List Transaction)
  | [], k, t => [(k, [t])]
  | (k', g) :: rest, k, t =>
    if k' = k then (k', g ++ [t]) :: rest else (k', g) :: addToGroups rest k t

/-- The filter-and-group loop over parsed transactions. -/
def buildGroupsAux (acc : List ((String × ℤ) × List Transaction)) :
    List Transaction → List ((String × ℤ) × List Transaction)
  | [] => acc
  | t :: ts =>
    buildGroupsAux
      (if t.txn_type = "DEBIT" ∧ AUTOPAY_CATEGORIES.contains t.category then
        addToGroups acc (groupKey t) t
      else acc) ts

/-- `sorted(..., key=lambda x: (len(x[1]), x[0][1]), reverse=True)`:
`a` may precede `b` iff `b`'s key is not larger. -/
def patLe (a b : (String × ℤ) × List Transaction) : Bool :=
  decide (b.2.length < a.2.length ∨ (b.2.length = a.2.length ∧ b.1.2 ≤ a.1.2))

/-- Split a character list at `' '`. -/
def splitOnSpace : List Char → List (List Char)
  | [] => [[]]
  | x :: xs =>
    match splitOnSpace xs with
    | [] => [[]]
    | g :: gs => if x = ' ' then [] :: g :: gs else (x :: g) :: gs

/-- `description.split()[0]`: the first whitespace-delimited token. -/
def firstWord (s : String) : String :=
  match (splitOnSpace s.data).filter (· ≠ []) with
  | [] => s
  | w :: _ => String.mk w

/-- The broader dedup category computed from a group label. -/
def dedupKeyOf (description : String) : String :=
  if subs "SIP" description then "SIP"
  else if subs "Card Payment" description then "CreditCard"
  else if subs "Rent" description then "Rent"
  else if subs "EMI" description then "EMI"
  else if subs "RD" description then "RD"
  else if subs " " description then firstWord description
  else description

/-- A payment nudge. -/
structure Nudge where
  category : String
  amount : ℤ
  due : String
  last_paid : String
  merchant : String
  autopay_eligible : Bool
deriving DecidableEq, Repr

/-- `s[:n]` by code points. -/
def takeStr (n : ℕ) (s : String) : String := String.mk (s.data.take n)

/-- `max(txns, key=lambda x: x['date'])`: first maximum under the raw
date-string order. -/
def latestOf (t0 : Transaction) (ts : List Transaction) : Transaction :=
  ts.foldl (fun acc t => if strLtB acc.date t.date then t else acc) t0

/-- The nudge-emitting loop over the sorted groups, threading the
`added_categories` set; `none` models the uncaught `ValueError` from
`strptime` (or `max` on an empty group, which cannot occur). -/
def buildNudges (now : Date) :
    List ((String × ℤ) × List Transaction) → List String → Option (List Nudge)
  | [], _ => some []
  | ((desc, amt), g) :: rest, added =>
    let ckey := dedupKeyOf desc
    if added.contains ckey then buildNudges now rest added
    else
      match g with
      | [] => none
      | t0 :: ts =>
        let latest := latestOf t0 ts
        match strptimeYmd latest.date with
        | none => none
        | some latestD =>
          let nextDue :=
            if dltB now latestD then
              if subs "SIP" desc ∨ subs "RD" desc then addDays 30 now
              else if subs "EMI" desc ∨ subs "Rent" desc then addDays 30 now
              else if desc = "Netflix" ∨ desc = "Sonyliv" ∨ desc = "ACT Broadband" ∨
                      desc = "Spotify" ∨ desc = "Youtube" then addDays 30 now
              else addDays 30 now
            else
              if 25 < (toOrdinal now : ℤ) - (toOrdinal latestD : ℤ) then addDays 5 now
              else addDays 30 latestD
          let nudge : Nudge :=
            { category := desc
              amount := amt
              due := strftimeYmd nextDue
              last_paid := latest.date
              merchant := takeStr 50 latest.narration
              autopay_eligible := true }
          (buildNudges now rest (added ++ [ckey])).map (nudge :: ·)

/-- `get_payment_nudges` after parsing: group, sort, dedup, emit, and
finally sort by due-date string. -/
def nudgesOfTransactions (now : Date) (ts : List Transaction) : Option (List Nudge) :=
  let pats := pysorted patLe (buildGroupsAux [] ts)
  (buildNudges now pats []).map (pysorted (fun a b => strLeB a.due b.due))

/-- `TransactionProcessor.get_payment_nudges`, with the reference time
`now` (the source's `datetime.now()`) injected at day granularity. -/
def get_payment_nudges (now : Date) (bd : BankData) : Option (List Nudge) :=
  (parse_bank_transactions bd).bind (nudgesOfTransactions now)

/-! ## Goal progress (`goals_manager.calculate_goal_progress`) -/

/-- A stored goal record (fields used by `calculate_goal_progress`). -/
structure Goal where
  id : String
  name : String
  target_amount : ℚ
  current_amount : ℚ
  target_date : String
deriving DecidableEq, Repr

/-- Progress metrics returned for a goal. -/
structure GoalProgress where
  goal_id : String
  name : String
  target_amount : ℚ
  current_amount : ℚ
  target_date : String
  progress_percentage : ℚ
  monthly_required : ℚ
  days_remaining : ℤ
  on_track : Bool
deriving DecidableEq, Repr

/-- `datetime.fromisoformat` restricted to the date-only ISO strings this
model covers; `none` models the raised `ValueError`. -/
def fromisoformat (s : String) : Option Date := strptimeYmd s

/-- `GoalsManager.calculate_goal_progress`, with `datetime.utcnow()`
injected as `now` at day granularity. -/
def calculate_goal_progress (now : Date) (g : Goal) : Option GoalProgress :=
  match fromisoformat g.target_date with
  | none => none
  | some td =>
    let progress_percentage : ℚ :=
      if 0 < g.target_amount then g.current_amount / g.target_amount * 100 else 0
    let days_remaining : ℤ := (toOrdinal td : ℤ) - (toOrdinal now : ℤ)
    let months_remaining : ℚ := max ((days_remaining : ℚ) / 30) 1
    let amount_remaining : ℚ := g.target_amount - g.current_amount
    let monthly_required : ℚ :=
      if 0 < months_remaining then amount_remaining / months_remaining
      else amount_remaining
    let expected_progress : ℚ := (1 - (days_remaining : ℚ) / 365) * 100
    let on_track : Bool := decide (expected_progress * (8/10) ≤ progress_percentage)
    some
      { goal_id := g.id
        name := g.name
        target_amount := g.target_amount
        current_amount := g.current_amount
        target_date := g.target_date
        progress_percentage := round2 progress_percentage
        monthly_required := round2 monthly_required
        days_remaining := days_remaining
        on_track := on_track }

/-! ## What-if simulator (`whatif_simulator`) -/

/-- The keyword arguments the simulator reads (absent ↦ default). -/
structure WhatIfKwargs where
  amount : Option ℚ
  horizon_months : Option ℕ
  annual_rate : Option ℚ
  percent : Option ℚ
  avg_monthly_spend : Option ℚ
deriving DecidableEq, Repr

/-- The simulator's result dictionaries. -/
inductive WhatIfResult
  | mf_return (initial_amount : ℚ) (horizon_months : ℕ)
      (annual_rate_percent projected_value projected_returns : ℚ)
  | spend_reduction (reduction_percent current_monthly_spend
      monthly_savings annual_savings : ℚ)
  | unknown_scenario
deriving DecidableEq, Repr

/-- `TransactionProcessor.whatif_simulator`. -/
def whatif_simulator (scenario : String) (kw : WhatIfKwargs) : WhatIfResult :=
  if scenario = "mf_return" then
    let amount := kw.amount.getD 0
    let months := kw.horizon_months.getD 12
    let annual_rate := kw.annual_rate.getD (12/100)
    let monthly_rate := annual_rate / 12
    let final_value := amount * (1 + monthly_rate) ^ months
    let returns := final_value - amount
    .mf_return amount months (annual_rate * 100) (round2 final_value) (round2 returns)
  else if scenario = "spend_reduction" then
    let percent := kw.percent.getD 10
    let monthly_spend := kw.avg_monthly_spend.getD 50000
    let monthly_savings := monthly_spend * (percent / 100)
    let annual_savings := monthly_savings * 12
    .spend_reduction percent monthly_spend (round2 monthly_savings) (round2 annual_savings)
  else .unknown_scenario

/-! ## Rounding lemmas -/

theorem floor_le_rhe (q : ℚ) : ⌊q⌋ ≤ rhe q := by
  unfold rhe
  split_ifs <;> omega

theorem rhe_le_floor_add_one (q : ℚ) : rhe q ≤ ⌊q⌋ + 1 := by
  unfold rhe
  split_ifs <;> omega

theorem rhe_sub_le (q : ℚ) : q - 1/2 ≤ (rhe q : ℚ) ∧ (rhe q : ℚ) ≤ q + 1/2 := by
  have h1 : (⌊q⌋ : ℚ) ≤ q := Int.floor_le q
  have h2 : q < ⌊q⌋ + 1 := Int.lt_floor_add_one q
  unfold rhe
  split_ifs <;> constructor <;> push_cast <;> linarith

theorem abs_rhe_sub (q : ℚ) : |(rhe q : ℚ) - q| ≤ 1/2 := by
  have h := rhe_sub_le q
  rw [abs_le]
  constructor <;> linarith [h.1, h.2]

theorem abs_round2_sub (q : ℚ) : |round2 q - q| ≤ 1/200 := by
  have h := abs_rhe_sub (q * 100)
  unfold round2
  have : (rhe (q * 100) : ℚ) / 100 - q = ((rhe (q * 100) : ℚ) - q * 100) / 100 := by
    ring
  rw [this, abs_div]
  have h100 : |(100 : ℚ)| = 100 := by norm_num
  rw [h100]
  linarith [div_le_div_of_nonneg_right (c := (100 : ℚ)) h (by norm_num)]

theorem rhe_mono {x y : ℚ} (h : x ≤ y) : rhe x ≤ rhe y := by
  have hf : ⌊x⌋ ≤ ⌊y⌋ := Int.floor_mono h
  rcases eq_or_lt_of_le hf with heq | hlt
  · unfold rhe
    rw [← heq]
    have hr : x - ⌊x⌋ ≤ y - ⌊x⌋ := by linarith
    split_ifs <;> first | omega | linarith
  · have h1 := rhe_le_floor_add_one x
    have h2 := floor_le_rhe y
    omega

theorem round2_mono {x y : ℚ} (h : x ≤ y) : round2 x ≤ round2 y := by
  unfold round2
  have := rhe_mono (mul_le_mul_of_nonneg_right h (by norm_num : (0:ℚ) ≤ 100))
  have hc : (rhe (x * 100) : ℚ) ≤ (rhe (y * 100) : ℚ) := by exact_mod_cast this
  linarith [div_le_div_of_nonneg_right (c := (100 : ℚ)) hc (by norm_num)]

theorem round2_zero : round2 0 = 0 := by
  norm_num [round2, rhe]

/-! ## Claim theorems: simulator and classifier -/

/-- Specification-side reformulation of the classifier: a pure function of
the uppercased concatenation, deciding by the first matching priority
keyword, then the first matching generic mapping, then `"Others"`. -/
def categorizeCombined (combined : String) : String :=
  match PRIORITY_KEYWORDS.find? (fun k => subs k combined) with
  | some k => (lookupMapping CATEGORY_MAPPINGS k).getD "Others"
  | none =>
    match CATEGORY_MAPPINGS.find? (fun kv => subs kv.1 combined) with
    | some kv => kv.2
    | none => "Others"

theorem priorityScan_eq_find (ks : List String) (c : String) :
    priorityScan ks c =
      (ks.find? (fun k => subs k c)).map
        (fun k => (lookupMapping CATEGORY_MAPPINGS k).getD "Others") := by
  induction ks with
  | nil => rfl
  | cons k ks ih =>
    by_cases h : subs k c = true <;>
      simp [priorityScan, List.find?_cons, h, ih]

theorem mappingScan_eq_find (ks : List (String × String)) (c : String) :
    mappingScan ks c = (ks.find? (fun kv => subs kv.1 c)).map (fun kv => kv.2) := by
  induction ks with
  | nil => rfl
  | cons kv ks ih =>
    by_cases h : subs kv.1 c = true <;>
      simp [mappingScan, List.find?_cons, h, ih]

/-- C6: `categorize_transaction` is a pure function of the uppercased
concatenation of narration and mode, returning the category of the first
matching priority keyword (even when a generic keyword also matches),
else the first matching generic keyword's category, else `"Others"`. -/
theorem categorize_transaction_spec (narration merchant : String) :
    categorize_transaction narration merchant =
      categorizeCombined (upperStr (narration ++ " " ++ merchant)) := by
  simp only [categorize_transaction, categorizeCombined]
  rw [priorityScan_eq_find, mappingScan_eq_find]
  rcases hp : PRIORITY_KEYWORDS.find?
      (fun k => subs k (upperStr (narration ++ " " ++ merchant))) with _ | k
  · rcases hm : CATEGORY_MAPPINGS.find?
        (fun kv => subs kv.1 (upperStr (narration ++ " " ++ merchant))) with _ | kv <;>
      simp [hp, hm]
  · simp [hp]

/-- C9: the `mf_return` scenario returns the monthly-compounded projection
`amount * (1 + annual_rate/12) ^ horizon_months` and its excess over the
principal, both rounded to 2 decimals; at `(10000, 12, 0.12)` the
projected value is within one cent of `11268.25`. -/
theorem whatif_mf_return_spec :
    (∀ (amount : ℚ) (months : ℕ) (rate : ℚ),
      whatif_simulator "mf_return"
          { amount := some amount, horizon_months := some months,
            annual_rate := some rate, percent := none, avg_monthly_spend := none } =
        .mf_return amount months (rate * 100)
          (round2 (amount * (1 + rate / 12) ^ months))
          (round2 (amount * (1 + rate / 12) ^ months - amount))) ∧
    |round2 (10000 * (1 + (12/100) / 12) ^ 12) - 11268.25| ≤ 1/100 := by
  constructor
  · intro amount months rate
    rfl
  · norm_num [round2, rhe]

/-! ## Claim theorem: goal progress (C8) -/

/-- C8: `calculate_goal_progress` reports a progress percentage of exactly
0 when the target amount is non-positive, reports
`current/target*100` rounded to 2 decimals otherwise, and with the target
fixed the reported percentage is monotonically non-decreasing in the
current amount. -/
theorem goal_progress_spec (now : Date) (g : Goal) (td : Date)
    (h : fromisoformat g.target_date = some td) :
    ∃ r, calculate_goal_progress now g = some r ∧
      (g.target_amount ≤ 0 → r.progress_percentage = 0) ∧
      (0 < g.target_amount →
        r.progress_percentage = round2 (g.current_amount / g.target_amount * 100)) ∧
      (∀ c1 c2 r1 r2, c1 ≤ c2 →
        calculate_goal_progress now { g with current_amount := c1 } = some r1 →
        calculate_goal_progress now { g with current_amount := c2 } = some r2 →
        r1.progress_percentage ≤ r2.progress_percentage) := by
  refine ⟨_, by rw [calculate_goal_progress, h], ?_, ?_, ?_⟩
  · intro hle
    have hnt : ¬ (0 < g.target_amount) := not_lt.mpr hle
    simp only [hnt, if_false, round2_zero]
  · intro hlt
    simp only [hlt, if_true]
  · intro c1 c2 r1 r2 hc h1 h2
    rw [calculate_goal_progress] at h1 h2
    dsimp only at h1 h2
    rw [h] at h1 h2
    cases h1
    cases h2
    dsimp only
    by_cases ht : 0 < g.target_amount
    · simp only [ht, if_true]
      refine round2_mono ?_
      gcongr
    · simp only [ht, if_false]
      exact le_refl _

/-! ## Digit lemmas -/

theorem dg_lt_10_of_isDig {c : Char} (h : isDig c = true) : dg c < 10 := by
  unfold isDig at h
  simpa using h

theorem isDig_digitChar {n : ℕ} (h : n < 10) : isDig (digitChar n) = true := by
  interval_cases n <;> rfl

theorem dg_digitChar {n : ℕ} (h : n < 10) : dg (digitChar n) = n := by
  interval_cases n <;> rfl

theorem digitChar_dg {c : Char} (h : isDig c = true) : digitChar (dg c) = c := by
  unfold isDig at h
  have h' : dg c < 10 := by simpa using h
  unfold dg at h' ⊢
  split at h' <;> simp_all [digitChar]

/-! ## Month arithmetic -/

theorem daysInMonth_pos (y m : ℕ) (h1 : 1 ≤ m) (h2 : m ≤ 12) :
    1 ≤ daysInMonth y m := by
  unfold daysInMonth
  split_ifs <;> omega

theorem daysInMonth_le31 (y m : ℕ) : daysInMonth y m ≤ 31 := by
  unfold daysInMonth
  split_ifs <;> omega

theorem daysBeforeMonth_succ (y m : ℕ) (h : 1 ≤ m) :
    daysBeforeMonth y (m + 1) = daysBeforeMonth y m + daysInMonth y m := by
  match m, h with
  | m + 1, _ => rfl

theorem daysBeforeMonth_le_succ (y m : ℕ) :
    daysBeforeMonth y m ≤ daysBeforeMonth y (m + 1) := by
  match m with
  | 0 => simp [daysBeforeMonth]
  | m + 1 => rw [daysBeforeMonth_succ y (m+1) (by omega)]; omega

theorem daysBeforeMonth_mono (y : ℕ) {m1 m2 : ℕ} (h : m1 ≤ m2) :
    daysBeforeMonth y m1 ≤ daysBeforeMonth y m2 := by
  induction m2 with
  | zero =>
    have hz : m1 = 0 := by omega
    subst hz
    exact le_refl _
  | succ m ih =>
    rcases Nat.lt_or_ge m1 (m + 1) with hlt | hge
    · exact le_trans (ih (by omega)) (daysBeforeMonth_le_succ y m)
    · have : m1 = m + 1 := by omega
      subst this
      exact le_refl _

theorem daysBeforeMonth_13 (y : ℕ) :
    daysBeforeMonth y 13 = 365 + (if isLeap y then 1 else 0) := by
  cases h : isLeap y <;>
    simp [daysBeforeMonth, daysInMonth, h]

/-! ## Year arithmetic -/

theorem leapsBefore_succ (y : ℕ) (hy : 1 ≤ y) :
    leapsBefore (y + 1) = leapsBefore y + (if isLeap y then 1 else 0) := by
  obtain ⟨k, rfl⟩ : ∃ k, y = k + 1 := ⟨y - 1, by omega⟩
  unfold leapsBefore isLeap
  simp only [Nat.add_sub_cancel]
  rw [Nat.succ_div k 4, Nat.succ_div k 100, Nat.succ_div k 400]
  split_ifs <;> simp_all [Nat.dvd_iff_mod_eq_zero] <;> omega

theorem daysBeforeYear_succ (y : ℕ) (hy : 1 ≤ y) :
    daysBeforeYear (y + 1) = daysBeforeYear y + 365 + (if isLeap y then 1 else 0) := by
  unfold daysBeforeYear
  rw [leapsBefore_succ y hy]
  have : (y + 1) - 1 = (y - 1) + 1 := by omega
  rw [this]
  omega

theorem daysBeforeYear_mono {y1 y2 : ℕ} (h1 : 1 ≤ y1) (h : y1 ≤ y2) :
    daysBeforeYear y1 ≤ daysBeforeYear y2 := by
  induction y2 with
  | zero => omega
  | succ y ih =>
    rcases Nat.lt_or_ge y1 (y + 1) with hlt | hge
    · have hy : 1 ≤ y := by omega
      calc daysBeforeYear y1 ≤ daysBeforeYear y := ih (by omega)
        _ ≤ _ := by rw [daysBeforeYear_succ y hy]; split_ifs <;> omega
    · have : y1 = y + 1 := by omega
      subst this
      exact le_refl _

/-! ## Day-successor and ordinal lemmas -/

theorem validDate_fields {dt : Date} (h : validDate dt = true) :
    1 ≤ dt.y ∧ 1 ≤ dt.m ∧ dt.m ≤ 12 ∧ 1 ≤ dt.d ∧ dt.d ≤ daysInMonth dt.y dt.m := by
  unfold validDate at h
  simpa using h

theorem daysInMonth_12 (y : ℕ) : daysInMonth y 12 = 31 := rfl

theorem toOrdinal_nextDay (dt : Date) (h : validDate dt = true) :
    toOrdinal (nextDay dt) = toOrdinal dt + 1 := by
  obtain ⟨hy, hm1, hm2, hd1, hd2⟩ := validDate_fields h
  obtain ⟨y, m, d⟩ := dt
  simp only at hy hm1 hm2 hd1 hd2
  unfold nextDay
  simp only
  split_ifs with h1 h2
  · unfold toOrdinal
    simp only
    omega
  · unfold toOrdinal
    simp only
    rw [daysBeforeMonth_succ y m hm1]
    omega
  · have hm12 : m = 12 := by omega
    subst hm12
    have hd31 : d = 31 := by
      have := daysInMonth_12 y
      omega
    subst hd31
    unfold toOrdinal
    simp only
    rw [daysBeforeYear_succ y hy]
    have h13 := daysBeforeMonth_13 y
    have h12 : daysBeforeMonth y 13 = daysBeforeMonth y 12 + daysInMonth y 12 :=
      daysBeforeMonth_succ y 12 (by omega)
    rw [daysInMonth_12] at h12
    have h0 : daysBeforeMonth (y + 1) 1 = 0 := rfl
    rw [h0]
    split_ifs at h13 ⊢ <;> omega

theorem validDate_nextDay (dt : Date) (h : validDate dt = true) :
    validDate (nextDay dt) = true := by
  obtain ⟨hy, hm1, hm2, hd1, hd2⟩ := validDate_fields h
  obtain ⟨y, m, d⟩ := dt
  simp only at hy hm1 hm2 hd1 hd2
  unfold nextDay
  simp only
  split_ifs with h1 h2
  · simp only [validDate, decide_eq_true_eq]
    omega
  · simp only [validDate, decide_eq_true_eq]
    have := daysInMonth_pos y (m + 1) (by omega) (by omega)
    omega
  · simp only [validDate, decide_eq_true_eq]
    have h31 : daysInMonth (y + 1) 1 = 31 := rfl
    omega

theorem toOrdinal_addDays (n : ℕ) (dt : Date) (h : validDate dt = true) :
    toOrdinal (addDays n dt) = toOrdinal dt + n := by
  induction n generalizing dt with
  | zero => rfl
  | succ n ih =>
    show toOrdinal (addDays n (nextDay dt)) = _
    rw [ih (nextDay dt) (validDate_nextDay dt h), toOrdinal_nextDay dt h]
    omega

theorem validDate_addDays (n : ℕ) (dt : Date) (h : validDate dt = true) :
    validDate (addDays n dt) = true := by
  induction n generalizing dt with
  | zero => exact h
  | succ n ih => exact ih (nextDay dt) (validDate_nextDay dt h)

/-! ## Chronological order vs ordinal -/

theorem toOrdinal_lt_of_dltB {a b : Date} (ha : validDate a = true)
    (hb : validDate b = true) (hlt : dltB a b = true) :
    toOrdinal a < toOrdinal b := by
  obtain ⟨hay, ham1, ham2, had1, had2⟩ := validDate_fields ha
  obtain ⟨hby, hbm1, hbm2, hbd1, hbd2⟩ := validDate_fields hb
  unfold dltB at hlt
  rw [decide_eq_true_eq] at hlt
  rcases hlt with hy | ⟨hyeq, hrest⟩
  · -- a.y < b.y
    have h1 : toOrdinal a < daysBeforeYear (a.y + 1) := by
      unfold toOrdinal
      rw [daysBeforeYear_succ a.y hay]
      have hs : daysBeforeMonth a.y a.m + daysInMonth a.y a.m =
          daysBeforeMonth a.y (a.m + 1) := (daysBeforeMonth_succ a.y a.m ham1).symm
      have hmle : daysBeforeMonth a.y (a.m + 1) ≤ daysBeforeMonth a.y 13 :=
        daysBeforeMonth_mono a.y (by omega)
      have h13 := daysBeforeMonth_13 a.y
      split_ifs at h13 ⊢ <;> omega
    have h2 : daysBeforeYear (a.y + 1) ≤ daysBeforeYear b.y :=
      daysBeforeYear_mono (by omega) (by omega)
    have h3 : daysBeforeYear b.y ≤ toOrdinal b := by
      unfold toOrdinal
      omega
    omega
  · rcases hrest with hm | ⟨hmeq, hd⟩
    · -- same year, a.m < b.m
      unfold toOrdinal
      rw [hyeq]
      have hs : daysBeforeMonth b.y a.m + daysInMonth b.y a.m =
          daysBeforeMonth b.y (a.m + 1) := by
        exact (daysBeforeMonth_succ b.y a.m (by omega)).symm
      have hmle : daysBeforeMonth b.y (a.m + 1) ≤ daysBeforeMonth b.y b.m :=
        daysBeforeMonth_mono b.y (by omega)
      have had2' : a.d ≤ daysInMonth b.y a.m := by rw [← hyeq]; exact had2
      omega
    · -- same year and month, a.d < b.d
      unfold toOrdinal
      rw [hyeq, hmeq]
      omega

theorem dltB_total (a b : Date) :
    dltB a b = true ∨ a = b ∨ dltB b a = true := by
  obtain ⟨ya, ma, da⟩ := a
  obtain ⟨yb, mb, db⟩ := b
  simp only [dltB, decide_eq_true_eq, Date.mk.injEq]
  omega

theorem dltB_iff_ord {a b : Date} (ha : validDate a = true) (hb : validDate b = true) :
    dltB a b = true ↔ toOrdinal a < toOrdinal b := by
  constructor
  · exact toOrdinal_lt_of_dltB ha hb
  · intro hord
    rcases dltB_total a b with h | h | h
    · exact h
    · subst h; omega
    · have := toOrdinal_lt_of_dltB hb ha h
      omega

theorem dleB_iff_ord {a b : Date} (ha : validDate a = true) (hb : validDate b = true) :
    dleB a b = true ↔ toOrdinal a ≤ toOrdinal b := by
  have hiff := dltB_iff_ord hb ha
  unfold dleB
  rcases hbo : dltB b a with _ | _
  · rw [hbo] at hiff
    constructor
    · intro _
      have hn : ¬ toOrdinal b < toOrdinal a := fun hc => Bool.false_ne_true (hiff.mpr hc)
      omega
    · intro _
      rfl
  · rw [hbo] at hiff
    constructor
    · intro h
      exact absurd h (by decide)
    · intro hle
      have hlt := hiff.mp rfl
      exact absurd hle (not_le.mpr hlt)

theorem dleB_y_le {a b : Date} (h : dleB a b = true) : a.y ≤ b.y := by
  obtain ⟨ya, ma, da⟩ := a
  obtain ⟨yb, mb, db⟩ := b
  simp only [dleB, dltB, decide_eq_true_eq, Bool.not_eq_true', decide_eq_false_iff_not] at h
  simp only
  omega

/-! ## Parse/format roundtrip -/

theorem strftime_data (dt : Date) :
    (strftimeYmd dt).data =
      [digitChar (dt.y / 1000 % 10), digitChar (dt.y / 100 % 10),
       digitChar (dt.y / 10 % 10), digitChar (dt.y % 10), '-',
       digitChar (dt.m / 10 % 10), digitChar (dt.m % 10), '-',
       digitChar (dt.d / 10 % 10), digitChar (dt.d % 10)] := rfl

theorem strptime_strftime (dt : Date) (h : validDate dt = true) (hy : dt.y ≤ 9999) :
    strptimeYmd (strftimeYmd dt) = some dt := by
  obtain ⟨hy1, hm1, hm2, hd1, hd2⟩ := validDate_fields h
  have hdle : dt.d ≤ 31 := le_trans hd2 (daysInMonth_le31 dt.y dt.m)
  obtain ⟨y, m, d⟩ := dt
  simp only at hy1 hm1 hm2 hd1 hd2 hy hdle
  unfold strptimeYmd
  rw [strftime_data]
  dsimp only [strptimeList]
  have l1 : y / 1000 % 10 < 10 := Nat.mod_lt _ (by norm_num)
  have l2 : y / 100 % 10 < 10 := Nat.mod_lt _ (by norm_num)
  have l3 : y / 10 % 10 < 10 := Nat.mod_lt _ (by norm_num)
  have l4 : y % 10 < 10 := Nat.mod_lt _ (by norm_num)
  have l5 : m / 10 % 10 < 10 := Nat.mod_lt _ (by norm_num)
  have l6 : m % 10 < 10 := Nat.mod_lt _ (by norm_num)
  have l7 : d / 10 % 10 < 10 := Nat.mod_lt _ (by norm_num)
  have l8 : d % 10 < 10 := Nat.mod_lt _ (by norm_num)
  rw [if_pos (by
    exact ⟨rfl, rfl, isDig_digitChar l1, isDig_digitChar l2, isDig_digitChar l3,
      isDig_digitChar l4, isDig_digitChar l5, isDig_digitChar l6,
      isDig_digitChar l7, isDig_digitChar l8⟩)]
  rw [dg_digitChar l1, dg_digitChar l2, dg_digitChar l3, dg_digitChar l4,
      dg_digitChar l5, dg_digitChar l6, dg_digitChar l7, dg_digitChar l8]
  have ey : 1000 * (y / 1000 % 10) + 100 * (y / 100 % 10) + 10 * (y / 10 % 10) + y % 10 = y := by
    omega
  have em : 10 * (m / 10 % 10) + m % 10 = m := by omega
  have ed : 10 * (d / 10 % 10) + d % 10 = d := by omega
  rw [ey, em, ed]
  rw [if_pos h]

theorem strptimeList_inv {cs : List Char} {dt : Date} (h : strptimeList cs = some dt) :
    cs = (strftimeYmd dt).data ∧ validDate dt = true ∧ dt.y ≤ 9999 := by
  unfold strptimeList at h
  split at h
  case h_2 => exact Option.noConfusion h
  case h_1 y1 y2 y3 y4 s1 m1 m2 s2 d1 d2 =>
    split_ifs at h with hc hv
    · obtain ⟨hs1, hs2, hdy1, hdy2, hdy3, hdy4, hdm1, hdm2, hdd1, hdd2⟩ := hc
      injection h with h
      subst h
      subst hs1
      subst hs2
      have by1 := dg_lt_10_of_isDig hdy1
      have by2 := dg_lt_10_of_isDig hdy2
      have by3 := dg_lt_10_of_isDig hdy3
      have by4 := dg_lt_10_of_isDig hdy4
      have bm1 := dg_lt_10_of_isDig hdm1
      have bm2 := dg_lt_10_of_isDig hdm2
      have bd1 := dg_lt_10_of_isDig hdd1
      have bd2 := dg_lt_10_of_isDig hdd2
      refine ⟨?_, hv, by simp only; omega⟩
      rw [strftime_data]
      simp only
      have e1 : (1000 * dg y1 + 100 * dg y2 + 10 * dg y3 + dg y4) / 1000 % 10 = dg y1 := by
        omega
      have e2 : (1000 * dg y1 + 100 * dg y2 + 10 * dg y3 + dg y4) / 100 % 10 = dg y2 := by
        omega
      have e3 : (1000 * dg y1 + 100 * dg y2 + 10 * dg y3 + dg y4) / 10 % 10 = dg y3 := by
        omega
      have e4 : (1000 * dg y1 + 100 * dg y2 + 10 * dg y3 + dg y4) % 10 = dg y4 := by
        omega
      have e5 : (10 * dg m1 + dg m2) / 10 % 10 = dg m1 := by omega
      have e6 : (10 * dg m1 + dg m2) % 10 = dg m2 := by omega
      have e7 : (10 * dg d1 + dg d2) / 10 % 10 = dg d1 := by omega
      have e8 : (10 * dg d1 + dg d2) % 10 = dg d2 := by omega
      rw [e1, e2, e3, e4, e5, e6, e7, e8]
      rw [digitChar_dg hdy1, digitChar_dg hdy2, digitChar_dg hdy3, digitChar_dg hdy4,
          digitChar_dg hdm1, digitChar_dg hdm2, digitChar_dg hdd1, digitChar_dg hdd2]

theorem strptime_inv {s : String} {dt : Date} (h : strptimeYmd s = some dt) :
    s = strftimeYmd dt ∧ validDate dt = true ∧ dt.y ≤ 9999 := by
  obtain ⟨cs⟩ := s
  have h' : strptimeList cs = some dt := h
  obtain ⟨he, hv, hy⟩ := strptimeList_inv h'
  exact ⟨congrArg String.mk he, hv, hy⟩

/-! ## Normalizer lemmas (C1) -/

/-- A provider row the normalizer can process without raising: either
shorter than 6 fields (skipped), or with parseable amount, direction code
and balance fields. -/
def rowOk : List JVal → Bool
  | a :: _ :: _ :: t :: _ :: b :: _ =>
    (pyFloat a).isSome && (pyInt t).isSome && (pyFloat b).isSome
  | _ => true

theorem parseRow_none_iff (bn : String) (r : List JVal) :
    parseRow bn r = none ↔ rowOk r = false := by
  unfold parseRow rowOk
  split
  · rename_i a n dte t mo b tail
    rcases ha : pyFloat a with _ | qa <;> rcases ht : pyInt t with _ | qt <;>
      rcases hb : pyFloat b with _ | qb <;> simp [ha, ht, hb]
  · rename_i hshape
    constructor
    · intro h
      exact Option.noConfusion h
    · intro h
      exact absurd h (by simp)

theorem parseRow_short (bn : String) (r : List JVal) (h : r.length < 6) :
    parseRow bn r = some none := by
  unfold parseRow
  split
  · rename_i a n dte t mo b tail
    simp at h
    omega
  · rfl

theorem parseRows_isSome (bn : String) (rows : List (List JVal)) :
    (parseRows bn rows).isSome ↔ ∀ r ∈ rows, rowOk r = true := by
  induction rows with
  | nil => simp [parseRows]
  | cons r rest ih =>
    unfold parseRows
    rcases hr : parseRow bn r with _ | o
    · have := (parseRow_none_iff bn r).mp hr
      simp [this]
    · have hok : rowOk r = true := by
        rcases hh : rowOk r with _ | _
        · exact absurd hr (by simp [(parseRow_none_iff bn r).mpr hh])
        · rfl
      simp [hok, Option.isSome_map, ih]

theorem parseRows_filter_short (bn : String) (rows : List (List JVal)) :
    parseRows bn (rows.filter (fun r => 6 ≤ r.length)) = parseRows bn rows := by
  induction rows with
  | nil => rfl
  | cons r rest ih =>
    by_cases h : 6 ≤ r.length
    · rw [List.filter_cons_of_pos (by simpa using h)]
      unfold parseRows
      rw [ih]
    · rw [List.filter_cons_of_neg (by simpa using h)]
      rw [ih]
      conv_rhs => rw [parseRows]
      rw [parseRow_short bn r (by omega)]
      simp

theorem parseBanks_isSome (bks : List BankBlock) :
    (parseBanks bks).isSome ↔
      ∀ bk ∈ bks, ∀ r ∈ bk.txns.getD [], rowOk r = true := by
  induction bks with
  | nil => simp [parseBanks]
  | cons bk rest ih =>
    unfold parseBanks
    rcases hb : parseRows (bk.bank.getD "Unknown Bank") (bk.txns.getD []) with _ | ts
    · have : ¬ ∀ r ∈ bk.txns.getD [], rowOk r = true := by
        intro hall
        have := (parseRows_isSome (bk.bank.getD "Unknown Bank") (bk.txns.getD [])).mpr hall
        rw [hb] at this
        cases this
      simp [Option.bind, this]
    · have hall : ∀ r ∈ bk.txns.getD [], rowOk r = true := by
        refine (parseRows_isSome (bk.bank.getD "Unknown Bank") (bk.txns.getD [])).mp ?_
        rw [hb]
        rfl
      rcases hrest : parseBanks rest with _ | rs
      · rw [hrest] at ih
        simp only [Option.isSome_none] at ih
        have : ¬ ∀ bk' ∈ rest, ∀ r ∈ bk'.txns.getD [], rowOk r = true := by
          intro hc
          exact absurd (ih.mpr hc) (by simp)
        simp only [Option.bind, List.mem_cons]
        constructor
        · intro hcon
          cases hcon
        · intro hcon
          exact absurd (fun bk' hm => hcon bk' (Or.inr hm)) this
      · rw [hrest] at ih
        simp only [Option.isSome_some, true_iff] at ih
        simp only [Option.bind, List.mem_cons]
        constructor
        · intro _ bk' hm
          rcases hm with rfl | hm
          · exact hall
          · exact ih bk' hm
        · intro _
          rfl

/-- The sub-payload of `bd` obtained by deleting every row shorter than 6
fields. -/
def dropShortRows (bd : BankData) : BankData :=
  ⟨bd.bankTransactions.map (fun bks => bks.map (fun bk =>
    ⟨bk.bank, some ((bk.txns.getD []).filter (fun r => 6 ≤ r.length))⟩))⟩

theorem parseBanks_filter_short (bks : List BankBlock) :
    parseBanks (bks.map (fun bk =>
      ⟨bk.bank, some ((bk.txns.getD []).filter (fun r => 6 ≤ r.length))⟩)) =
    parseBanks bks := by
  induction bks with
  | nil => rfl
  | cons bk rest ih =>
    simp only [List.map_cons]
    unfold parseBanks
    rw [ih]
    dsimp only
    simp only [Option.getD_some]
    rw [parseRows_filter_short]

theorem parse_dropShortRows (bd : BankData) :
    parse_bank_transactions (dropShortRows bd) = parse_bank_transactions bd := by
  unfold parse_bank_transactions dropShortRows
  rcases bd.bankTransactions with _ | bks
  · rfl
  · exact parseBanks_filter_short bks

/-- C1 (amended): the normalizer silently skips rows shorter than 6
fields (deleting them does not change the result), but it raises — rather
than skipping — on any 6-field row whose amount, direction code, or
balance cannot be parsed as a number: it returns a list exactly when
every at-least-6-field row has parseable numeric fields. The date field
is never validated here. -/
theorem parse_bank_transactions_amended (bd : BankData) :
    ((parse_bank_transactions bd).isSome ↔
      ∀ bk ∈ bd.bankTransactions.getD [], ∀ r ∈ bk.txns.getD [], rowOk r = true) ∧
    parse_bank_transactions (dropShortRows bd) = parse_bank_transactions bd := by
  refine ⟨?_, parse_dropShortRows bd⟩
  unfold parse_bank_transactions
  rcases bd.bankTransactions with _ | bks
  · simp
  · simpa using parseBanks_isSome bks

/-- A payload with one 6-field row whose amount field `"abc"` cannot be
parsed as a number. -/
def c1BadPayload : BankData :=
  ⟨some [⟨some "HDFC",
    some [[.str "abc", .str "N", .str "2024-01-01", .num 2, .str "UPI", .num 100]]⟩]⟩

/-- C1 counterexample: on a payload whose single row has 6 fields but an
unparsable amount, `parse_bank_transactions` raises (modelled `none`)
instead of skipping the row and returning a list. -/
theorem parse_bank_transactions_counterexample :
    parse_bank_transactions c1BadPayload = none := by decide

/-! ## Daily-spend lemmas (C4, C7) -/

theorem dayRangeAux_eq (td : Date) (htd : validDate td = true) :
    ∀ (fuel : ℕ) (cur : Date), validDate cur = true →
      fuel = toOrdinal td + 1 - toOrdinal cur →
      dayRangeAux td fuel cur = (List.range fuel).map (fun i => addDays i cur) := by
  intro fuel
  induction fuel with
  | zero =>
    intro cur _ _
    rfl
  | succ n ih =>
    intro cur hc hf
    have hord : toOrdinal cur ≤ toOrdinal td := by omega
    have hle : dleB cur td = true := (dleB_iff_ord hc htd).mpr hord
    unfold dayRangeAux
    rw [if_pos hle]
    have hnext : n = toOrdinal td + 1 - toOrdinal (nextDay cur) := by
      rw [toOrdinal_nextDay cur hc]
      omega
    rw [ih (nextDay cur) (validDate_nextDay cur hc) hnext]
    rw [List.range_succ_eq_map, List.map_cons, List.map_map]
    rfl

theorem dayRange_eq (fd td : Date) (hfd : validDate fd = true) (htd : validDate td = true) :
    dayRange fd td =
      (List.range (toOrdinal td + 1 - toOrdinal fd)).map (fun i => addDays i fd) :=
  dayRangeAux_eq td htd _ fd hfd rfl

theorem lookupAmt_bumpAmt (m : List (String × ℚ)) (s s' : String) (a : ℚ) :
    lookupAmt (bumpAmt m s a) s' = lookupAmt m s' + (if s' = s then a else 0) := by
  induction m with
  | nil =>
    by_cases h : s' = s
    · subst h
      simp [bumpAmt, lookupAmt]
    · have h' : ¬ s = s' := fun hh => h hh.symm
      simp [bumpAmt, lookupAmt, h, h']
  | cons kv rest ih =>
    obtain ⟨k, v⟩ := kv
    unfold bumpAmt
    by_cases hk : k = s
    · subst hk
      by_cases h : s' = k
      · subst h
        simp [lookupAmt]
      · have h' : ¬ k = s' := fun hh => h hh.symm
        simp [lookupAmt, h, h']
    · rw [if_neg hk]
      unfold lookupAmt
      by_cases h : k = s'
      · subst h
        simp [hk]
      · simp [h, ih]

/-- The transaction is a `DEBIT` whose parsed date lies in `[fd, td]`. -/
def debitInRange (fd td : Date) (t : Transaction) : Bool :=
  decide (t.txn_type = "DEBIT") &&
    (match strptimeYmd t.date with
     | some dt => dleB fd dt && dleB dt td
     | none => false)

theorem dailyBucketsAux_some (fd td : Date) :
    ∀ (ts : List Transaction) (acc : List (String × ℚ)),
      (∀ t ∈ ts, t.txn_type = "DEBIT" → (strptimeYmd t.date).isSome = true) →
      ∃ m, dailyBucketsAux fd td acc ts = some m ∧
        ∀ s, lookupAmt m s = lookupAmt acc s +
          ((ts.filter (fun t => debitInRange fd td t && decide (t.date = s))).map
            Transaction.amount).sum := by
  intro ts
  induction ts with
  | nil =>
    intro acc _
    exact ⟨acc, rfl, fun s => by simp⟩
  | cons t ts ih =>
    intro acc hdates
    unfold dailyBucketsAux
    by_cases hdeb : t.txn_type = "DEBIT"
    · rw [if_pos hdeb]
      have hps : (strptimeYmd t.date).isSome = true :=
        hdates t (by simp) hdeb
      rcases hs : strptimeYmd t.date with _ | dt
      · rw [hs] at hps
        cases hps
      · have htail : ∀ t' ∈ ts, t'.txn_type = "DEBIT" → (strptimeYmd t'.date).isSome = true :=
          fun t' ht' => hdates t' (by simp [ht'])
        dsimp only
        by_cases hr : dleB fd dt = true ∧ dleB dt td = true
        · rw [if_pos hr]
          obtain ⟨m, hm, hms⟩ := ih (bumpAmt acc t.date t.amount) htail
          refine ⟨m, hm, fun s => ?_⟩
          rw [hms s, lookupAmt_bumpAmt]
          have hpred : (debitInRange fd td t && decide (t.date = s)) =
              decide (t.date = s) := by
            have : debitInRange fd td t = true := by
              unfold debitInRange
              rw [hs]
              simp [hdeb, hr.1, hr.2]
            rw [this, Bool.true_and]
          rw [List.filter_cons, hpred]
          by_cases hds : t.date = s
          · have h1 : (s = t.date) = True := by simp [hds.symm]
            simp [hds, h1]
            ring
          · have h2 : ¬ s = t.date := fun hh => hds hh.symm
            simp [hds, h2]
        · rw [if_neg hr]
          obtain ⟨m, hm, hms⟩ := ih acc htail
          refine ⟨m, hm, fun s => ?_⟩
          rw [hms s, List.filter_cons]
          have hpred : (debitInRange fd td t && decide (t.date = s)) = false := by
            have : debitInRange fd td t = false := by
              unfold debitInRange
              rw [hs]
              rcases h1 : dleB fd dt with _ | _ <;>
                rcases h2 : dleB dt td with _ | _ <;> simp_all
            rw [this, Bool.false_and]
          rw [hpred]
          simp
    · rw [if_neg hdeb]
      have htail : ∀ t' ∈ ts, t'.txn_type = "DEBIT" → (strptimeYmd t'.date).isSome = true :=
        fun t' ht' => hdates t' (by simp [ht'])
      obtain ⟨m, hm, hms⟩ := ih acc htail
      refine ⟨m, hm, fun s => ?_⟩
      rw [hms s, List.filter_cons]
      have hpred : (debitInRange fd td t && decide (t.date = s)) = false := by
        have : debitInRange fd td t = false := by
          unfold debitInRange
          simp [hdeb]
        rw [this, Bool.false_and]
      rw [hpred]
      simp

theorem dailyBucketsAux_none (fd td : Date) :
    ∀ (ts : List Transaction) (acc : List (String × ℚ)),
      (∃ t ∈ ts, t.txn_type = "DEBIT" ∧ strptimeYmd t.date = none) →
      dailyBucketsAux fd td acc ts = none := by
  intro ts
  induction ts with
  | nil =>
    intro acc h
    obtain ⟨t, ht, -⟩ := h
    cases ht
  | cons t ts ih =>
    intro acc h
    unfold dailyBucketsAux
    obtain ⟨t', ht', hdeb', hbad'⟩ := h
    rcases List.mem_cons.mp ht' with rfl | hmem
    · rw [if_pos hdeb', hbad']
    · by_cases hdeb : t.txn_type = "DEBIT"
      · rw [if_pos hdeb]
        rcases hs : strptimeYmd t.date with _ | dt
        · rfl
        · exact ih _ ⟨t', hmem, hdeb', hbad'⟩
      · rw [if_neg hdeb]
        exact ih _ ⟨t', hmem, hdeb', hbad'⟩

/-- C4: over a range `[from, to]` with `from ≤ to` (when every debit date
parses, cf. C7), `calculate_daily_spend` returns exactly
`(to - from).days + 1` entries, the `i`-th entry carrying the `i`-th
calendar day of the range (so the dates are strictly ascending with no
gaps) and the sum of the `DEBIT` amounts dated that day — `CREDIT` rows
never contribute, and days with no debit sum to 0 (an empty filter). -/
theorem daily_spend_spec (ts : List Transaction) (f t : String) (fd td : Date)
    (hf : strptimeYmd f = some fd) (ht : strptimeYmd t = some td)
    (hrange : toOrdinal fd ≤ toOrdinal td)
    (hdates : ∀ tx ∈ ts, tx.txn_type = "DEBIT" → (strptimeYmd tx.date).isSome = true) :
    ∃ out, calculate_daily_spend ts f t = some out ∧
      out.length = (toOrdinal td - toOrdinal fd) + 1 ∧
      out = (List.range ((toOrdinal td - toOrdinal fd) + 1)).map (fun i =>
        { date := strftimeYmd (addDays i fd)
          amount := ((ts.filter (fun tx => decide (tx.txn_type = "DEBIT") &&
              decide (strptimeYmd tx.date = some (addDays i fd)))).map
            Transaction.amount).sum }) ∧
      ∀ i (hi : i < out.length),
        strptimeYmd (out.get ⟨i, hi⟩).date = some (addDays i fd) := by
  obtain ⟨hffmt, hvfd, hyfd⟩ := strptime_inv hf
  obtain ⟨htfmt, hvtd, hytd⟩ := strptime_inv ht
  obtain ⟨m, hm, hms⟩ := dailyBucketsAux_some fd td ts [] hdates
  have hn : toOrdinal td + 1 - toOrdinal fd = (toOrdinal td - toOrdinal fd) + 1 := by
    omega
  have hday : ∀ i, i ≤ toOrdinal td - toOrdinal fd →
      validDate (addDays i fd) = true ∧ dleB fd (addDays i fd) = true ∧
      dleB (addDays i fd) td = true ∧ (addDays i fd).y ≤ 9999 := by
    intro i hi
    have hv := validDate_addDays i fd hvfd
    have ho := toOrdinal_addDays i fd hvfd
    have h1 : dleB fd (addDays i fd) = true := (dleB_iff_ord hvfd hv).mpr (by omega)
    have h2 : dleB (addDays i fd) td = true := (dleB_iff_ord hv hvtd).mpr (by omega)
    exact ⟨hv, h1, h2, le_trans (dleB_y_le h2) hytd⟩
  have hpred : ∀ i, i ≤ toOrdinal td - toOrdinal fd → ∀ tx ∈ ts,
      (debitInRange fd td tx && decide (tx.date = strftimeYmd (addDays i fd))) =
      (decide (tx.txn_type = "DEBIT") &&
        decide (strptimeYmd tx.date = some (addDays i fd))) := by
    intro i hi tx _
    obtain ⟨hv, h1, h2, hy⟩ := hday i hi
    rw [Bool.eq_iff_iff]
    simp only [Bool.and_eq_true, decide_eq_true_eq]
    unfold debitInRange
    simp only [Bool.and_eq_true, decide_eq_true_eq]
    constructor
    · rintro ⟨⟨hdb, hmr⟩, heq⟩
      refine ⟨hdb, ?_⟩
      rw [heq]
      exact strptime_strftime _ hv hy
    · rintro ⟨hdb, hps⟩
      obtain ⟨hfmt, -, -⟩ := strptime_inv hps
      refine ⟨⟨hdb, ?_⟩, hfmt⟩
      rw [hps]
      simp [h1, h2]
  have hentry : ∀ i ∈ List.range ((toOrdinal td - toOrdinal fd) + 1),
      DayEntry.mk (strftimeYmd (addDays i fd)) (lookupAmt m (strftimeYmd (addDays i fd))) =
      { date := strftimeYmd (addDays i fd)
        amount := ((ts.filter (fun tx => decide (tx.txn_type = "DEBIT") &&
            decide (strptimeYmd tx.date = some (addDays i fd)))).map
          Transaction.amount).sum } := by
    intro i hi
    have hi' : i ≤ toOrdinal td - toOrdinal fd := by
      have := List.mem_range.mp hi
      omega
    simp only [DayEntry.mk.injEq, true_and]
    rw [hms, List.filter_congr (hpred i hi')]
    simp [lookupAmt]
  have hout : calculate_daily_spend ts f t =
      some ((List.range ((toOrdinal td - toOrdinal fd) + 1)).map (fun i =>
        { date := strftimeYmd (addDays i fd)
          amount := ((ts.filter (fun tx => decide (tx.txn_type = "DEBIT") &&
              decide (strptimeYmd tx.date = some (addDays i fd)))).map
            Transaction.amount).sum })) := by
    unfold calculate_daily_spend
    rw [hf, ht]
    dsimp only
    rw [hm, Option.map_some']
    refine congrArg some ?_
    rw [dayRange_eq fd td hvfd hvtd, hn, List.map_map]
    exact List.map_congr_left hentry
  refine ⟨_, hout, by simp, rfl, ?_⟩
  intro i hi
  simp only [List.get_eq_getElem, List.getElem_map, List.getElem_range]
  have hi' : i ≤ toOrdinal td - toOrdinal fd := by
    simp only [List.length_map, List.length_range] at hi
    omega
  obtain ⟨hv, -, -, hy⟩ := hday i hi'
  exact strptime_strftime _ hv hy

/-! ## Monthly-spend and category lemmas (C7, C5) -/

theorem monthlyBucketsAux_isSome (fd td : Date) :
    ∀ (ts : List Transaction) (acc : List (String × ℚ)),
      (monthlyBucketsAux fd td acc ts).isSome = true ↔
        ∀ t ∈ ts, t.txn_type = "DEBIT" → (strptimeYmd t.date).isSome = true := by
  intro ts
  induction ts with
  | nil =>
    intro acc
    simp [monthlyBucketsAux]
  | cons t ts ih =>
    intro acc
    unfold monthlyBucketsAux
    by_cases hdeb : t.txn_type = "DEBIT"
    · rw [if_pos hdeb]
      rcases hs : strptimeYmd t.date with _ | dt
      · constructor
        · intro hc
          exact absurd hc (by simp)
        · intro hall
          have := hall t (by simp) hdeb
          rw [hs] at this
          exact absurd this (by simp)
      · dsimp only
        rw [ih]
        constructor
        · intro hall t' ht' hdb'
          rcases List.mem_cons.mp ht' with rfl | hmem
          · simp [hs]
          · exact hall t' hmem hdb'
        · intro hall t' ht' hdb'
          exact hall t' (by simp [ht']) hdb'
    · rw [if_neg hdeb]
      rw [ih]
      constructor
      · intro hall t' ht' hdb'
        rcases List.mem_cons.mp ht' with rfl | hmem
        · exact absurd hdb' hdeb
        · exact hall t' hmem hdb'
      · intro hall t' ht' hdb'
        exact hall t' (by simp [ht']) hdb'

theorem categoryBucketsAux_none (fd td : Date) :
    ∀ (ts : List Transaction) (acc : List (String × ℚ) × ℚ),
      (∃ t ∈ ts, t.txn_type = "DEBIT" ∧ strptimeYmd t.date = none) →
      categoryBucketsAux fd td acc ts = none := by
  intro ts
  induction ts with
  | nil =>
    intro acc h
    obtain ⟨t, ht, -⟩ := h
    cases ht
  | cons t ts ih =>
    intro acc h
    unfold categoryBucketsAux
    obtain ⟨t', ht', hdeb', hbad'⟩ := h
    rcases List.mem_cons.mp ht' with rfl | hmem
    · rw [if_pos hdeb', hbad']
    · by_cases hdeb : t.txn_type = "DEBIT"
      · rw [if_pos hdeb]
        rcases hs : strptimeYmd t.date with _ | dt
        · rfl
        · exact ih _ ⟨t', hmem, hdeb', hbad'⟩
      · rw [if_neg hdeb]
        exact ih _ ⟨t', hmem, hdeb', hbad'⟩

/-- Sum of the values of an association list. -/
def valueSum (m : List (String × ℚ)) : ℚ := (m.map Prod.snd).sum

theorem bumpAmt_valueSum (m : List (String × ℚ)) (s : String) (a : ℚ) :
    valueSum (bumpAmt m s a) = valueSum m + a := by
  induction m with
  | nil => simp [bumpAmt, valueSum]
  | cons kv rest ih =>
    obtain ⟨k, v⟩ := kv
    unfold bumpAmt
    by_cases hk : k = s
    · rw [if_pos hk]
      simp [valueSum]
      ring
    · rw [if_neg hk]
      simp only [valueSum, List.map_cons, List.sum_cons] at ih ⊢
      rw [ih]
      ring

theorem bumpAmt_keys_mem (m : List (String × ℚ)) (s : String) (a : ℚ) :
    ∀ k ∈ (bumpAmt m s a).map Prod.fst, k ∈ m.map Prod.fst ∨ k = s := by
  induction m with
  | nil => simp [bumpAmt]
  | cons kv rest ih =>
    obtain ⟨k', v⟩ := kv
    unfold bumpAmt
    by_cases hk : k' = s
    · rw [if_pos hk]
      intro k hmem
      simp only [List.map_cons, List.mem_cons] at hmem ⊢
      tauto
    · rw [if_neg hk]
      intro k hmem
      simp only [List.map_cons, List.mem_cons] at hmem ⊢
      rcases hmem with rfl | hmem
      · tauto
      · rcases ih k hmem with h | h <;> tauto

theorem bumpAmt_keys_nodup (m : List (String × ℚ)) (s : String) (a : ℚ)
    (h : (m.map Prod.fst).Nodup) : ((bumpAmt m s a).map Prod.fst).Nodup := by
  induction m with
  | nil => simp [bumpAmt]
  | cons kv rest ih =>
    obtain ⟨k', v⟩ := kv
    unfold bumpAmt
    simp only [List.map_cons, List.nodup_cons] at h
    by_cases hk : k' = s
    · rw [if_pos hk]
      simp only [List.map_cons, List.nodup_cons]
      exact h
    · rw [if_neg hk]
      simp only [List.map_cons, List.nodup_cons]
      refine ⟨?_, ih h.2⟩
      intro hc
      rcases bumpAmt_keys_mem rest s a k' hc with hmem | rfl
      · exact h.1 hmem
      · exact hk rfl

theorem categoryBucketsAux_some (fd td : Date) :
    ∀ (ts : List Transaction) (acc : List (String × ℚ) × ℚ),
      (∀ t ∈ ts, t.txn_type = "DEBIT" → (strptimeYmd t.date).isSome = true) →
      ∃ mt, categoryBucketsAux fd td acc ts = some mt ∧
        mt.2 = acc.2 + ((ts.filter (debitInRange fd td)).map Transaction.amount).sum ∧
        valueSum mt.1 = valueSum acc.1 +
          ((ts.filter (debitInRange fd td)).map Transaction.amount).sum ∧
        ((acc.1.map Prod.fst).Nodup → (mt.1.map Prod.fst).Nodup) ∧
        (∀ k ∈ mt.1.map Prod.fst,
          k ∈ acc.1.map Prod.fst ∨ k ∈ ts.map Transaction.category) ∧
        (ts.filter (debitInRange fd td) = [] → mt.1 = acc.1) := by
  intro ts
  induction ts with
  | nil =>
    intro acc _
    exact ⟨acc, rfl, by simp, by simp, fun h => h, by simp, fun _ => rfl⟩
  | cons t ts ih =>
    intro acc hdates
    have htail : ∀ t' ∈ ts, t'.txn_type = "DEBIT" → (strptimeYmd t'.date).isSome = true :=
      fun t' ht' => hdates t' (by simp [ht'])
    unfold categoryBucketsAux
    by_cases hdeb : t.txn_type = "DEBIT"
    · rw [if_pos hdeb]
      have hps : (strptimeYmd t.date).isSome = true := hdates t (by simp) hdeb
      rcases hs : strptimeYmd t.date with _ | dt
      · rw [hs] at hps
        exact absurd hps (by simp)
      · dsimp only
        have hdir : debitInRange fd td t =
            (dleB fd dt && dleB dt td) := by
          unfold debitInRange
          rw [hs]
          simp [hdeb]
        by_cases hr : dleB fd dt = true ∧ dleB dt td = true
        · rw [if_pos hr]
          obtain ⟨mt, hmt, h1, h2, h3, h4, h5⟩ :=
            ih (bumpAmt acc.1 t.category t.amount, acc.2 + t.amount) htail
          have hfil : (t :: ts).filter (debitInRange fd td) =
              t :: ts.filter (debitInRange fd td) := by
            rw [List.filter_cons]
            simp [hdir, hr.1, hr.2]
          refine ⟨mt, hmt, ?_, ?_, ?_, ?_, ?_⟩
          · rw [h1, hfil]
            simp only [List.map_cons, List.sum_cons]
            ring
          · rw [h2, hfil]
            simp only [bumpAmt_valueSum, List.map_cons, List.sum_cons]
            ring
          · intro hnd
            exact h3 (bumpAmt_keys_nodup acc.1 t.category t.amount hnd)
          · intro k hk
            rcases h4 k hk with hmem | hmem
            · rcases bumpAmt_keys_mem acc.1 t.category t.amount k hmem with h | rfl
              · exact Or.inl h
              · exact Or.inr (by simp)
            · exact Or.inr (by simp [hmem])
          · intro hfe
            rw [hfil] at hfe
            cases hfe
        · rw [if_neg hr]
          obtain ⟨mt, hmt, h1, h2, h3, h4, h5⟩ := ih acc htail
          have hfil : (t :: ts).filter (debitInRange fd td) =
              ts.filter (debitInRange fd td) := by
            rw [List.filter_cons]
            have : debitInRange fd td t = false := by
              rw [hdir]
              rcases hq1 : dleB fd dt with _ | _ <;>
                rcases hq2 : dleB dt td with _ | _ <;> simp_all
            simp [this]
          refine ⟨mt, hmt, by rw [h1, hfil], by rw [h2, hfil], h3, ?_, ?_⟩
          · intro k hk
            rcases h4 k hk with hmem | hmem
            · exact Or.inl hmem
            · exact Or.inr (by simp [hmem])
          · intro hfe
            rw [hfil] at hfe
            exact h5 hfe
    · rw [if_neg hdeb]
      obtain ⟨mt, hmt, h1, h2, h3, h4, h5⟩ := ih acc htail
      have hfil : (t :: ts).filter (debitInRange fd td) =
          ts.filter (debitInRange fd td) := by
        rw [List.filter_cons]
        have : debitInRange fd td t = false := by
          unfold debitInRange
          simp [hdeb]
        simp [this]
      refine ⟨mt, hmt, by rw [h1, hfil], by rw [h2, hfil], h3, ?_, ?_⟩
      · intro k hk
        rcases h4 k hk with hmem | hmem
        · exact Or.inl hmem
        · exact Or.inr (by simp [hmem])
      · intro hfe
        rw [hfil] at hfe
        exact h5 hfe

/-! ## C7: behaviour of date-scoped views on unparsable dates -/

/-- A `DEBIT` record whose date is not a valid calendar date. -/
def c7BadTx : Transaction :=
  { amount := 250, narration := "N", date := "not-a-date", txn_type := "DEBIT",
    mode := "UPI", balance := 0, category := "Others", bank := "B" }

/-- C7 counterexample: a single `DEBIT` transaction with an unparsable
date makes every date-scoped view raise (modelled `none`) instead of
excluding the record and returning a result. -/
theorem aggregates_bad_date_counterexample :
    calculate_daily_spend [c7BadTx] "2024-01-01" "2024-01-03" = none ∧
    calculate_monthly_spend [c7BadTx] "2024-01-01" "2024-01-03" = none ∧
    calculate_category_breakdown [c7BadTx] "2024-01-01" "2024-01-03" = none := by
  refine ⟨?_, ?_, ?_⟩ <;> decide

/-- C7 (amended): with parseable endpoints, each of the three date-scoped
views returns a result exactly when every `DEBIT` transaction's date
parses; a `DEBIT` with an unparsable date makes the whole computation
raise, while non-`DEBIT` records never have their dates parsed. -/
theorem aggregates_bad_date_amended (ts : List Transaction) (f t : String) (fd td : Date)
    (hf : strptimeYmd f = some fd) (ht : strptimeYmd t = some td) :
    ((calculate_daily_spend ts f t).isSome = true ↔
      ∀ tx ∈ ts, tx.txn_type = "DEBIT" → (strptimeYmd tx.date).isSome = true) ∧
    ((calculate_monthly_spend ts f t).isSome = true ↔
      ∀ tx ∈ ts, tx.txn_type = "DEBIT" → (strptimeYmd tx.date).isSome = true) ∧
    ((calculate_category_breakdown ts f t).isSome = true ↔
      ∀ tx ∈ ts, tx.txn_type = "DEBIT" → (strptimeYmd tx.date).isSome = true) := by
  by_cases hp : ∀ tx ∈ ts, tx.txn_type = "DEBIT" → (strptimeYmd tx.date).isSome = true
  · refine ⟨iff_of_true ?_ hp, iff_of_true ?_ hp, iff_of_true ?_ hp⟩
    · obtain ⟨m, hm, -⟩ := dailyBucketsAux_some fd td ts [] hp
      unfold calculate_daily_spend
      rw [hf, ht]
      dsimp only
      rw [hm]
      rfl
    · unfold calculate_monthly_spend
      rw [hf, ht]
      dsimp only
      have hms := (monthlyBucketsAux_isSome fd td ts []).mpr hp
      rcases hmb : monthlyBucketsAux fd td [] ts with _ | m
      · rw [hmb] at hms
        exact absurd hms (by simp)
      · rfl
    · obtain ⟨mt, hmt, -⟩ := categoryBucketsAux_some fd td ts ([], 0) hp
      unfold calculate_category_breakdown
      rw [hf, ht]
      dsimp only
      rw [hmt]
      rfl
  · have hbad : ∃ tx ∈ ts, tx.txn_type = "DEBIT" ∧ strptimeYmd tx.date = none := by
      push_neg at hp
      obtain ⟨tx, htx, hdb, hns⟩ := hp
      refine ⟨tx, htx, hdb, ?_⟩
      rcases hs : strptimeYmd tx.date with _ | dt
      · rfl
      · rw [hs] at hns
        exact absurd rfl hns
    refine ⟨iff_of_false ?_ hp, iff_of_false ?_ hp, iff_of_false ?_ hp⟩
    · unfold calculate_daily_spend
      rw [hf, ht]
      dsimp only
      rw [dailyBucketsAux_none fd td ts [] hbad]
      simp
    · unfold calculate_monthly_spend
      rw [hf, ht]
      dsimp only
      intro hc
      refine hp ((monthlyBucketsAux_isSome fd td ts []).mp ?_)
      rcases hmb : monthlyBucketsAux fd td [] ts with _ | m
      · rw [hmb] at hc
        exact absurd hc (by simp)
      · simp
    · unfold calculate_category_breakdown
      rw [hf, ht]
      dsimp only
      rw [categoryBucketsAux_none fd td ts ([], 0) hbad]
      simp

/-! ## Stable-sort lemmas -/

theorem pyInsert_perm (r : α → α → Bool) (x : α) (l : List α) :
    (pyInsert r x l).Perm (x :: l) := by
  induction l with
  | nil => exact List.Perm.refl _
  | cons y ys ih =>
    unfold pyInsert
    by_cases h : r x y = true
    · rw [if_pos h]
    · rw [if_neg h]
      exact (List.Perm.cons y ih).trans (List.Perm.swap x y ys)

theorem pysorted_perm (r : α → α → Bool) (l : List α) :
    (pysorted r l).Perm l := by
  induction l with
  | nil => exact List.Perm.refl _
  | cons x xs ih =>
    unfold pysorted
    exact (pyInsert_perm r x (pysorted r xs)).trans (List.Perm.cons x ih)

theorem pyInsert_pairwise (r : α → α → Bool)
    (htrans : ∀ a b c, r a b = true → r b c = true → r a c = true)
    (htot : ∀ a b, r a b = true ∨ r b a = true) (x : α) (l : List α)
    (hl : List.Pairwise (fun a b => r a b = true) l) :
    List.Pairwise (fun a b => r a b = true) (pyInsert r x l) := by
  induction l with
  | nil => simp [pyInsert]
  | cons y ys ih =>
    rcases List.pairwise_cons.mp hl with ⟨hy, hys⟩
    unfold pyInsert
    by_cases h : r x y = true
    · rw [if_pos h]
      refine List.pairwise_cons.mpr ⟨?_, hl⟩
      intro z hz
      rcases List.mem_cons.mp hz with rfl | hz
      · exact h
      · exact htrans x y z h (hy z hz)
    · rw [if_neg h]
      refine List.pairwise_cons.mpr ⟨?_, ih hys⟩
      intro z hz
      have hz' := (pyInsert_perm r x ys).mem_iff.mp hz
      rcases List.mem_cons.mp hz' with rfl | hz'
      · rcases htot y z with hh | hh
        · exact hh
        · exact absurd hh h
      · exact hy z hz'

theorem pysorted_pairwise (r : α → α → Bool)
    (htrans : ∀ a b c, r a b = true → r b c = true → r a c = true)
    (htot : ∀ a b, r a b = true ∨ r b a = true) (l : List α) :
    List.Pairwise (fun a b => r a b = true) (pysorted r l) := by
  induction l with
  | nil => simp [pysorted]
  | cons x xs ih =>
    unfold pysorted
    exact pyInsert_pairwise r htrans htot x (pysorted r xs) ih

/-! ## Category taxonomy (C5) -/

/-- The fixed output taxonomy of the classifier: every value of
`CATEGORY_MAPPINGS` plus the default `"Others"`. -/
def categoryTaxonomy : List String :=
  ["Groceries", "Dining", "Credit Card Payment", "Bills", "Investment", "Savings",
   "Transfer", "Shopping", "Loan", "Streaming", "Internet", "Telecom", "DTH",
   "Insurance", "Housing", "Others"]

theorem lookupMapping_getD_mem (l : List (String × String)) (k d : String) :
    (lookupMapping l k).getD d ∈ l.map Prod.snd ∨ (lookupMapping l k).getD d = d := by
  induction l with
  | nil => simp [lookupMapping]
  | cons kv rest ih =>
    obtain ⟨k', v⟩ := kv
    unfold lookupMapping
    by_cases hk : k' = k
    · rw [if_pos hk]
      simp
    · rw [if_neg hk]
      rcases ih with h | h
      · exact Or.inl (by simp [h])
      · exact Or.inr h

theorem priorityScan_mem {ks : List String} {c v : String}
    (h : priorityScan ks c = some v) :
    v ∈ CATEGORY_MAPPINGS.map Prod.snd ∨ v = "Others" := by
  induction ks with
  | nil => cases h
  | cons k ks ih =>
    unfold priorityScan at h
    by_cases hs : subs k c = true
    · rw [if_pos hs] at h
      injection h with h
      subst h
      exact lookupMapping_getD_mem CATEGORY_MAPPINGS k "Others"
    · rw [if_neg hs] at h
      exact ih h

theorem mappingScan_mem {l : List (String × String)} {c v : String}
    (h : mappingScan l c = some v) : v ∈ l.map Prod.snd := by
  induction l with
  | nil => cases h
  | cons kv l ih =>
    obtain ⟨k, cat⟩ := kv
    unfold mappingScan at h
    by_cases hs : subs k c = true
    · rw [if_pos hs] at h
      injection h with h
      subst h
      simp
    · rw [if_neg hs] at h
      simp only [List.map_cons, List.mem_cons]
      exact Or.inr (ih h)

theorem categorize_mem_taxonomy (n m : String) :
    categorize_transaction n m ∈ categoryTaxonomy := by
  have hvals : ∀ v ∈ CATEGORY_MAPPINGS.map Prod.snd, v ∈ categoryTaxonomy := by decide
  simp only [categorize_transaction]
  rcases hp : priorityScan PRIORITY_KEYWORDS (upperStr (n ++ " " ++ m)) with _ | v
  · dsimp only
    rcases hm : mappingScan CATEGORY_MAPPINGS (upperStr (n ++ " " ++ m)) with _ | v
    · simp [categoryTaxonomy]
    · exact hvals v (mappingScan_mem hm)
  · dsimp only
    rcases priorityScan_mem hp with h | h
    · exact hvals v h
    · rw [h]
      simp [categoryTaxonomy]

theorem abs_sum_round2_sub (l : List ℚ) :
    |(l.map round2).sum - l.sum| ≤ (l.length : ℚ) * (1/200) := by
  induction l with
  | nil => simp
  | cons x xs ih =>
    simp only [List.map_cons, List.sum_cons, List.length_cons]
    have h1 := abs_round2_sub x
    calc |round2 x + (xs.map round2).sum - (x + xs.sum)|
        = |(round2 x - x) + ((xs.map round2).sum - xs.sum)| := by ring_nf
      _ ≤ |round2 x - x| + |(xs.map round2).sum - xs.sum| := abs_add _ _
      _ ≤ 1/200 + (xs.length : ℚ) * (1/200) := add_le_add h1 ih
      _ = ((xs.length : ℚ) + 1) * (1/200) := by ring
      _ = (((xs.length + 1 : ℕ)) : ℚ) * (1/200) := by push_cast; ring

/-- C5: `calculate_category_breakdown` totals the in-range debit amounts,
stamps every entry with `round2` of its share of the total (0 instead of a
division when the total is not positive), sorts entries descending by
amount, leaves the breakdown empty when no debit falls in range, and —
when the total is positive and all categories come from the classifier's
16-value taxonomy — the reported percentages sum to 100 within ±0.1. -/
theorem category_breakdown_spec (ts : List Transaction) (f t : String) (fd td : Date)
    (hf : strptimeYmd f = some fd) (ht : strptimeYmd t = some td)
    (hdates : ∀ tx ∈ ts, tx.txn_type = "DEBIT" → (strptimeYmd tx.date).isSome = true)
    (hcat : ∀ tx ∈ ts, tx.category ∈ categoryTaxonomy) :
    ∃ r, calculate_category_breakdown ts f t = some r ∧
      r.total = ((ts.filter (debitInRange fd td)).map Transaction.amount).sum ∧
      (∀ e ∈ r.breakdown, e.percentage =
        round2 (if 0 < r.total then e.amount / r.total * 100 else 0)) ∧
      List.Pairwise (fun e1 e2 => e2.amount ≤ e1.amount) r.breakdown ∧
      (0 < r.total →
        |(r.breakdown.map BreakdownEntry.percentage).sum - 100| ≤ 1/10) ∧
      (ts.filter (debitInRange fd td) = [] → r.breakdown = []) := by
  obtain ⟨mt, hmt, htot, hvs, hnd, hkeys, hemp⟩ :=
    categoryBucketsAux_some fd td ts ([], 0) hdates
  have htot' : mt.2 = ((ts.filter (debitInRange fd td)).map Transaction.amount).sum := by
    rw [htot]
    ring
  have hvs' : valueSum mt.1 = mt.2 := by
    rw [hvs, htot']
    simp [valueSum]
  have hnd' : (mt.1.map Prod.fst).Nodup := hnd (by simp)
  have hlen : mt.1.length ≤ 16 := by
    have hsub : (mt.1.map Prod.fst) ⊆ categoryTaxonomy := by
      intro k hk
      rcases hkeys k hk with h | h
      · simp at h
      · obtain ⟨tx, htx, rfl⟩ := List.mem_map.mp h
        exact hcat tx htx
    have := (hnd'.subperm hsub).length_le
    simp only [List.length_map] at this
    simpa [categoryTaxonomy] using this
  unfold calculate_category_breakdown
  rw [hf, ht]
  dsimp only
  rw [hmt, Option.map_some']
  refine ⟨_, rfl, htot', ?_, ?_, ?_, ?_⟩
  · intro e he
    obtain ⟨kv, hkv, rfl⟩ := List.mem_map.mp he
    rfl
  · rw [List.pairwise_map]
    refine List.Pairwise.imp ?_ (pysorted_pairwise amountDescLe ?_ ?_ mt.1)
    · intro a b hab
      simpa [amountDescLe] using hab
    · intro a b c hab hbc
      simp only [amountDescLe, decide_eq_true_eq] at hab hbc ⊢
      exact le_trans hbc hab
    · intro a b
      simp only [amountDescLe, decide_eq_true_eq]
      exact le_total b.2 a.2
  · intro hpos
    have hperm : (pysorted amountDescLe mt.1).Perm mt.1 := pysorted_perm _ _
    have hper :
        (List.map BreakdownEntry.percentage
          ((pysorted amountDescLe mt.1).map (fun kv =>
            BreakdownEntry.mk kv.1 kv.2
              (round2 (if 0 < mt.2 then kv.2 / mt.2 * 100 else 0))))) =
        ((pysorted amountDescLe mt.1).map (fun kv => kv.2 / mt.2 * 100)).map round2 := by
      rw [List.map_map, List.map_map]
      refine List.map_congr_left ?_
      intro kv _
      simp only [Function.comp]
      rw [if_pos hpos]
    rw [hper]
    have hsum : ((pysorted amountDescLe mt.1).map (fun kv => kv.2 / mt.2 * 100)).sum
        = 100 := by
      have h1 : ∀ kv : String × ℚ, kv.2 / mt.2 * 100 = kv.2 * (100 / mt.2) := by
        intro kv
        ring
      rw [List.map_congr_left (fun kv _ => h1 kv), List.sum_map_mul_right]
      have h2 : ((pysorted amountDescLe mt.1).map Prod.snd).sum = valueSum mt.1 := by
        exact (hperm.map Prod.snd).sum_eq
      rw [h2, hvs']
      field_simp
    have hlen2 : ((pysorted amountDescLe mt.1).map (fun kv => kv.2 / mt.2 * 100)).length
        ≤ 16 := by
      rw [List.length_map, hperm.length_eq]
      exact hlen
    have hclose := abs_sum_round2_sub
      ((pysorted amountDescLe mt.1).map (fun kv => kv.2 / mt.2 * 100))
    rw [hsum] at hclose
    have : (((pysorted amountDescLe mt.1).map
        (fun kv => kv.2 / mt.2 * 100)).length : ℚ) * (1/200) ≤ 16 * (1/200) := by
      have : (((pysorted amountDescLe mt.1).map
          (fun kv => kv.2 / mt.2 * 100)).length : ℚ) ≤ 16 := by
        exact_mod_cast hlen2
      linarith
    calc |(((pysorted amountDescLe mt.1).map
          (fun kv => kv.2 / mt.2 * 100)).map round2).sum - 100|
        ≤ _ * (1/200) := hclose
      _ ≤ 16 * (1/200) := this
      _ ≤ 1/10 := by norm_num
  · intro hfe
    rw [hemp hfe]
    rfl

/-! ## Nudge-engine lemmas (C2, C3, C10) -/

/-- Invariant of the recurring-pattern groups: each group is nonempty and
consists of autopay-eligible `DEBIT` transactions of `ts` sharing the
group's key. -/
def GroupOk (ts : List Transaction) (p : (String × ℤ) × List Transaction) : Prop :=
  p.2 ≠ [] ∧ ∀ tx ∈ p.2, groupKey tx = p.1 ∧ tx ∈ ts ∧ tx.txn_type = "DEBIT" ∧
    AUTOPAY_CATEGORIES.contains tx.category = true

theorem addToGroups_ok (ts : List Transaction) (t : Transaction)
    (htx : t ∈ ts ∧ t.txn_type = "DEBIT" ∧ AUTOPAY_CATEGORIES.contains t.category = true) :
    ∀ (gs : List ((String × ℤ) × List Transaction)),
      (∀ p ∈ gs, GroupOk ts p) →
      ∀ p ∈ addToGroups gs (groupKey t) t, GroupOk ts p := by
  intro gs
  induction gs with
  | nil =>
    intro _ p hp
    unfold addToGroups at hp
    rcases List.mem_singleton.mp hp with rfl
    refine ⟨by simp, ?_⟩
    intro tx htx'
    rcases List.mem_singleton.mp htx' with rfl
    exact ⟨rfl, htx.1, htx.2.1, htx.2.2⟩
  | cons q rest ih =>
    intro hgs p hp
    obtain ⟨k', g⟩ := q
    unfold addToGroups at hp
    by_cases hk : k' = groupKey t
    · rw [if_pos hk] at hp
      rcases List.mem_cons.mp hp with rfl | hp
      · have hq := hgs (k', g) (by simp)
        refine ⟨by simp, ?_⟩
        intro tx htx'
        rcases List.mem_append.mp htx' with hmem | hmem
        · exact hq.2 tx hmem
        · rcases List.mem_singleton.mp hmem with rfl
          exact ⟨hk ▸ rfl, htx.1, htx.2.1, htx.2.2⟩
      · exact hgs p (by simp [hp])
    · rw [if_neg hk] at hp
      rcases List.mem_cons.mp hp with rfl | hp'
      · exact hgs (k', g) (by simp)
      · exact ih (fun q hq => hgs q (by simp [hq])) p hp'

theorem buildGroupsAux_ok (ts : List Transaction) :
    ∀ (l : List Transaction) (acc : List ((String × ℤ) × List Transaction)),
      (∀ tx ∈ l, tx ∈ ts) →
      (∀ p ∈ acc, GroupOk ts p) →
      ∀ p ∈ buildGroupsAux acc l, GroupOk ts p := by
  intro l
  induction l with
  | nil =>
    intro acc _ hacc p hp
    exact hacc p hp
  | cons t l ih =>
    intro acc hl hacc p hp
    unfold buildGroupsAux at hp
    by_cases hc : t.txn_type = "DEBIT" ∧ AUTOPAY_CATEGORIES.contains t.category = true
    · rw [if_pos hc] at hp
      exact ih _ (fun tx htx => hl tx (by simp [htx]))
        (addToGroups_ok ts t ⟨hl t (by simp), hc.1, hc.2⟩ acc hacc) p hp
    · rw [if_neg hc] at hp
      exact ih _ (fun tx htx => hl tx (by simp [htx])) hacc p hp

theorem latestOf_mem (t0 : Transaction) (ts : List Transaction) :
    latestOf t0 ts ∈ t0 :: ts := by
  induction ts generalizing t0 with
  | nil => simp [latestOf]
  | cons t ts ih =>
    unfold latestOf
    simp only [List.foldl_cons]
    have hstep := ih (if strLtB t0.date t.date = true then t else t0)
    unfold latestOf at hstep
    rcases List.mem_cons.mp hstep with heq | hmem
    · rw [heq]
      by_cases h : strLtB t0.date t.date = true <;> simp [h]
    · simp [hmem]

/-- What C2 and C10 assert of one emitted nudge: its due date follows the
two-branch next-due rule relative to `now`, and its category/amount pair
is the group key of one of the parsed transactions, whose date is the
reported `last_paid`. -/
def NudgeOk (now : Date) (ts : List Transaction) (n : Nudge) : Prop :=
  (∃ L, strptimeYmd n.last_paid = some L ∧
    n.due = (if dltB now L = true then strftimeYmd (addDays 30 now)
             else if 25 < (toOrdinal now : ℤ) - (toOrdinal L : ℤ) then
               strftimeYmd (addDays 5 now)
             else strftimeYmd (addDays 30 L))) ∧
  (∃ tx ∈ ts, tx.txn_type = "DEBIT" ∧ groupKey tx = (n.category, n.amount) ∧
    n.last_paid = tx.date)

theorem buildNudges_sound (now : Date) (ts : List Transaction) :
    ∀ (pats : List ((String × ℤ) × List Transaction)) (added : List String)
      (ns : List Nudge),
      (∀ p ∈ pats, GroupOk ts p) →
      buildNudges now pats added = some ns →
      (∀ n ∈ ns, NudgeOk now ts n) ∧
      (ns.map (fun n => dedupKeyOf n.category)).Nodup ∧
      (∀ n ∈ ns, dedupKeyOf n.category ∉ added) := by
  intro pats
  induction pats with
  | nil =>
    intro added ns _ h
    injection h with h
    subst h
    exact ⟨by simp, by simp, by simp⟩
  | cons q rest ih =>
    intro added ns hok h
    obtain ⟨⟨desc, amt⟩, g⟩ := q
    have hrest : ∀ p ∈ rest, GroupOk ts p := fun p hp => hok p (by simp [hp])
    simp only [buildNudges] at h
    by_cases hadd : added.contains (dedupKeyOf desc) = true
    · rw [if_pos hadd] at h
      exact ih added ns hrest h
    · rw [if_neg hadd] at h
      have hq := hok ((desc, amt), g) (by simp)
      rcases hg : g with _ | ⟨t0, g'⟩
      · exact absurd (hg ▸ hq.1) (by simp)
      · rw [hg] at h
        dsimp only at h
        have hlmem : latestOf t0 g' ∈ g := hg ▸ latestOf_mem t0 g'
        have hlat := hq.2 (latestOf t0 g') hlmem
        rcases hs : strptimeYmd (latestOf t0 g').date with _ | L
        · rw [hs] at h
          exact Option.noConfusion h
        · rw [hs] at h
          dsimp only at h
          rcases hrec : buildNudges now rest
              (added ++ [dedupKeyOf desc]) with _ | ns'
          · rw [hrec] at h
            exact Option.noConfusion h
          · rw [hrec] at h
            rw [Option.map_some'] at h
            injection h with h
            obtain ⟨hall', hnd', hnin'⟩ := ih (added ++ [dedupKeyOf desc]) ns' hrest hrec
            subst h
            refine ⟨?_, ?_, ?_⟩
            · intro n hn
              rcases List.mem_cons.mp hn with rfl | hn
              · constructor
                · refine ⟨L, hs, ?_⟩
                  dsimp only
                  split_ifs <;> rfl
                · exact ⟨latestOf t0 g', hlat.2.1, hlat.2.2.1,
                    by rw [hlat.1], rfl⟩
              · exact hall' n hn
            · simp only [List.map_cons, List.nodup_cons]
              refine ⟨?_, hnd'⟩
              intro hc
              obtain ⟨n', hn', hkey⟩ := List.mem_map.mp hc
              have := hnin' n' hn'
              rw [hkey] at this
              exact this (by simp)
            · intro n hn
              rcases List.mem_cons.mp hn with rfl | hn
              · exact fun hc => hadd (by simpa using hc)
              · intro hc
                exact hnin' n hn (by simp [hc])

/-- Soundness of the whole pipeline: on success, every returned nudge is
`NudgeOk` and the broad dedup keys of the returned list are pairwise
distinct. -/
theorem get_payment_nudges_sound (now : Date) (bd : BankData) (ns : List Nudge)
    (h : get_payment_nudges now bd = some ns) :
    ∃ ts, parse_bank_transactions bd = some ts ∧
      (∀ n ∈ ns, NudgeOk now ts n) ∧
      (ns.map (fun n => dedupKeyOf n.category)).Nodup := by
  unfold get_payment_nudges at h
  rcases hp : parse_bank_transactions bd with _ | ts
  · rw [hp] at h
    exact Option.noConfusion h
  · rw [hp] at h
    unfold nudgesOfTransactions at h
    simp only [Option.some_bind] at h
    rcases hb : buildNudges now (pysorted patLe (buildGroupsAux [] ts)) [] with _ | ns0
    · rw [hb] at h
      exact Option.noConfusion h
    · rw [hb, Option.map_some'] at h
      injection h with h
      have hgs : ∀ p ∈ pysorted patLe (buildGroupsAux [] ts), GroupOk ts p := by
        intro p hp'
        have hmem := (pysorted_perm patLe (buildGroupsAux [] ts)).mem_iff.mp hp'
        exact buildGroupsAux_ok ts ts [] (fun tx htx => htx) (by simp) p hmem
      obtain ⟨hall, hnd, -⟩ := buildNudges_sound now ts _ [] ns0 hgs hb
      subst h
      refine ⟨ts, rfl, ?_, ?_⟩
      · intro n hn
        exact hall n ((pysorted_perm _ ns0).mem_iff.mp hn)
      · have hpermmap := (pysorted_perm (fun a b => strLeB a.due b.due) ns0).map
          (fun n => dedupKeyOf n.category)
        exact hpermmap.nodup_iff.mpr hnd

/-- C2: every returned nudge's due date follows the next-due rule: if the
group's latest payment date is strictly in the future of `now`, the due
date is `now + 30` days (for every obligation kind); otherwise it is
`now + 5` days when more than 25 days have passed since the last payment,
and `last_paid + 30` days otherwise. -/
theorem payment_nudges_due_spec (now : Date) (bd : BankData) (ns : List Nudge)
    (h : get_payment_nudges now bd = some ns) (n : Nudge) (hn : n ∈ ns) :
    ∃ L, strptimeYmd n.last_paid = some L ∧
      n.due = (if dltB now L = true then strftimeYmd (addDays 30 now)
               else if 25 < (toOrdinal now : ℤ) - (toOrdinal L : ℤ) then
                 strftimeYmd (addDays 5 now)
               else strftimeYmd (addDays 30 L)) := by
  obtain ⟨ts, -, hall, -⟩ := get_payment_nudges_sound now bd ns h
  exact (hall n hn).1

/-- C3: the returned nudge list never contains two entries with the same
broad dedup key (`SIP`, `CreditCard`, `Rent`, `EMI`, `RD`, or the label's
first word): after sorting groups by (count desc, amount desc), only the
first group per dedup key survives. -/
theorem payment_nudges_dedup_spec (now : Date) (bd : BankData) (ns : List Nudge)
    (h : get_payment_nudges now bd = some ns) :
    List.Pairwise (fun a b => dedupKeyOf a.category ≠ dedupKeyOf b.category) ns := by
  obtain ⟨ts, -, -, hnd⟩ := get_payment_nudges_sound now bd ns h
  unfold List.Nodup at hnd
  exact List.pairwise_map.mp hnd

theorem pytrunc_div100_bound (a : ℚ) (ha : 0 ≤ a) :
    ((pytrunc (a / 100) * 100 : ℤ) : ℚ) ≤ a ∧
      a - ((pytrunc (a / 100) * 100 : ℤ) : ℚ) < 100 := by
  have h0 : (0:ℚ) ≤ a / 100 := by positivity
  unfold pytrunc
  rw [if_pos h0]
  have h1 : (⌊a / 100⌋ : ℚ) ≤ a / 100 := Int.floor_le _
  have h2 : a / 100 < ⌊a / 100⌋ + 1 := Int.lt_floor_add_one _
  constructor
  · push_cast
    linarith
  · push_cast
    linarith

set_option maxHeartbeats 1600000 in
theorem groupKey_amount (tx : Transaction) :
    (genericKeyed tx = false → (groupKey tx).2 = pytrunc tx.amount) ∧
    (genericKeyed tx = true → (groupKey tx).2 = pytrunc (tx.amount / 100) * 100) := by
  constructor
  · intro hg
    simp only [groupKey]
    split_ifs <;> first
      | rfl
      | (exact absurd hg (by simp only [genericKeyed]; simp_all; tauto))
  · intro hg
    simp only [genericKeyed, Bool.and_eq_true, Bool.not_eq_true'] at hg
    simp only [groupKey]
    split_ifs <;> simp_all

/-- C10: every returned nudge's amount is its group's key amount, derived
from a group transaction `tx` (the latest one): `int(tx.amount)` for the
specially-keyed obligations and `int(tx.amount/100)*100` for
generically-keyed ones, so a generically-keyed nudge understates the
actual charge by up to (strictly less than) 100 units. -/
theorem payment_nudges_amount_spec (now : Date) (bd : BankData) (ns : List Nudge)
    (h : get_payment_nudges now bd = some ns) (n : Nudge) (hn : n ∈ ns) :
    ∃ ts tx, parse_bank_transactions bd = some ts ∧ tx ∈ ts ∧
      tx.txn_type = "DEBIT" ∧ groupKey tx = (n.category, n.amount) ∧
      n.last_paid = tx.date ∧
      (genericKeyed tx = false → n.amount = pytrunc tx.amount) ∧
      (genericKeyed tx = true → n.amount = pytrunc (tx.amount / 100) * 100 ∧
        (0 ≤ tx.amount → (n.amount : ℚ) ≤ tx.amount ∧
          tx.amount - (n.amount : ℚ) < 100)) := by
  obtain ⟨ts, hts, hall, -⟩ := get_payment_nudges_sound now bd ns h
  obtain ⟨-, tx, htx, hdeb, hkey, hlp⟩ := hall n hn
  have hamt : (groupKey tx).2 = n.amount := by rw [hkey]
  refine ⟨ts, tx, hts, htx, hdeb, hkey, hlp, ?_, ?_⟩
  · intro hg
    rw [← hamt, (groupKey_amount tx).1 hg]
  · intro hg
    have he : n.amount = pytrunc (tx.amount / 100) * 100 := by
      rw [← hamt, (groupKey_amount tx).2 hg]
    refine ⟨he, fun ha => ?_⟩
    have hb := pytrunc_div100_bound tx.amount ha
    rw [he]
    push_cast at hb ⊢
    exact hb

/-! ## Concrete witnesses -/

/-- A concrete payload with one recurring Netflix debit. -/
def nudgeBd : BankData :=
  ⟨some [⟨some "HDFC",
    some [[.num 199, .str "NETFLIX SUBSCRIPTION", .str "2024-05-01", .num 2,
           .str "UPI", .num 1000]]⟩]⟩

/-- A concrete reference time. -/
def nudgeNow : Date := ⟨2024, 6, 10⟩

/-- The nudge the pipeline produces for `nudgeBd` at `nudgeNow`. -/
def nudgeOut : Nudge :=
  { category := "Netflix", amount := 199, due := "2024-06-15",
    last_paid := "2024-05-01", merchant := "NETFLIX SUBSCRIPTION",
    autopay_eligible := true }

/-- Witness for C2 at a concrete payload and reference time. -/
theorem payment_nudges_due_spec_witness :
    ∃ L, strptimeYmd nudgeOut.last_paid = some L ∧
      nudgeOut.due = (if dltB nudgeNow L = true then strftimeYmd (addDays 30 nudgeNow)
               else if 25 < (toOrdinal nudgeNow : ℤ) - (toOrdinal L : ℤ) then
                 strftimeYmd (addDays 5 nudgeNow)
               else strftimeYmd (addDays 30 L)) :=
  payment_nudges_due_spec nudgeNow nudgeBd [nudgeOut] (by decide) nudgeOut (by decide)

/-- Witness for C3 at a concrete payload. -/
theorem payment_nudges_dedup_spec_witness :
    List.Pairwise (fun a b => dedupKeyOf a.category ≠ dedupKeyOf b.category)
      [nudgeOut] :=
  payment_nudges_dedup_spec nudgeNow nudgeBd [nudgeOut] (by decide)

/-- Witness for C10 at a concrete payload. -/
theorem payment_nudges_amount_spec_witness :
    ∃ ts tx, parse_bank_transactions nudgeBd = some ts ∧ tx ∈ ts ∧
      tx.txn_type = "DEBIT" ∧ groupKey tx = (nudgeOut.category, nudgeOut.amount) ∧
      nudgeOut.last_paid = tx.date ∧
      (genericKeyed tx = false → nudgeOut.amount = pytrunc tx.amount) ∧
      (genericKeyed tx = true → nudgeOut.amount = pytrunc (tx.amount / 100) * 100 ∧
        (0 ≤ tx.amount → (nudgeOut.amount : ℚ) ≤ tx.amount ∧
          tx.amount - (nudgeOut.amount : ℚ) < 100)) :=
  payment_nudges_amount_spec nudgeNow nudgeBd [nudgeOut] (by decide) nudgeOut (by decide)

/-- Two transactions (one debit, one credit) inside January 2024. -/
def c4Txns : List Transaction :=
  [{ amount := 250, narration := "N", date := "2024-01-02", txn_type := "DEBIT",
     mode := "UPI", balance := 0, category := "Shopping", bank := "B" },
   { amount := 99, narration := "C", date := "2024-01-02", txn_type := "CREDIT",
     mode := "UPI", balance := 0, category := "Others", bank := "B" }]

/-- Witness for C4 at a concrete 3-day range. -/
theorem daily_spend_spec_witness :
    ∃ out, calculate_daily_spend c4Txns "2024-01-01" "2024-01-03" = some out ∧
      out.length = 3 := by
  obtain ⟨out, h1, h2, -, -⟩ :=
    daily_spend_spec c4Txns "2024-01-01" "2024-01-03" ⟨2024, 1, 1⟩ ⟨2024, 1, 3⟩
      (by decide) (by decide) (by decide) (by decide)
  refine ⟨out, h1, ?_⟩
  rw [h2]
  decide

/-- Witness for C5 at a concrete range. -/
theorem category_breakdown_spec_witness :
    ∃ r, calculate_category_breakdown c4Txns "2024-01-01" "2024-01-03" = some r ∧
      (0 < r.total →
        |(r.breakdown.map BreakdownEntry.percentage).sum - 100| ≤ 1/10) := by
  obtain ⟨r, h1, -, -, -, h5, -⟩ :=
    category_breakdown_spec c4Txns "2024-01-01" "2024-01-03" ⟨2024, 1, 1⟩ ⟨2024, 1, 3⟩
      (by decide) (by decide) (by decide) (by decide)
  exact ⟨r, h1, h5⟩

/-- Witness for the amended C7 at a concrete range: with every debit date
parseable, the daily view returns a result. -/
theorem aggregates_bad_date_amended_witness :
    (calculate_daily_spend c4Txns "2024-01-01" "2024-01-03").isSome = true := by
  refine (aggregates_bad_date_amended c4Txns "2024-01-01" "2024-01-03"
    ⟨2024, 1, 1⟩ ⟨2024, 1, 3⟩ (by decide) (by decide)).1.mpr ?_
  decide

/-- A concrete goal record. -/
def goalG : Goal :=
  { id := "g1", name := "Car", target_amount := 100000, current_amount := 25000,
    target_date := "2024-12-31" }

/-- Witness for C8 at a concrete goal. -/
theorem goal_progress_spec_witness :
    ∃ r, calculate_goal_progress ⟨2024, 6, 10⟩ goalG = some r := by
  obtain ⟨r, hr, -, -, -⟩ :=
    goal_progress_spec ⟨2024, 6, 10⟩ goalG ⟨2024, 12, 31⟩ (by decide)
  exact ⟨r, hr⟩

end Finion
